import Mathlib

/-!
Verification of the inventory-reservation and session-integrity core of the
perf-BE flash-sale backend.

The definitions below are a shallow embedding of the TypeScript source:

* `src/src/controller/flash-sale.controller.ts` — the `purchaseProduct`
  handler (reservation engine) and the admin lifecycle handlers
  (`activateFlashSale`, `deactivateFlashSale`).
* `src/src/server.ts` — the expired-purchase cleanup interval (expiry reaper)
  and the flash-sale status sync interval.
* `src/src/model/flash-sale.model.ts`, `src/src/model/purchase.model.ts` —
  the document shapes and the unique `(userId, flashSaleId)` index.
* `src/src/common/utils/authenticate.ts` — `handleRefreshToken` and
  `revokeAllUserSessions` (jti-whitelist revision).
* `src/src/controller/auth.controller.ts` — the session part of `signIn`.

MongoDB collections are modelled as Lean lists of documents; a
`findOneAndUpdate` is an atomic conditional update of the first matching
document.  The two dot-notation array conditions of the stock decrement
(`'products.productId'` and `'products.stockRemaining'`) carry no
`$elemMatch`, so — per MongoDB's array-match semantics — the document matches
when each condition is satisfied by *some* element of the array, possibly
different ones; the positional `$` of the update is bound to the first
element satisfying the conjunction of the array conditions when one exists
(the unambiguous case), and otherwise to the first element satisfying the
last array condition (`stockRemaining > 0`).  Concurrency is modelled
by a small-step semantics: each request/background tick is a thread whose
store-touching actions are individual atomic steps, and a schedule is an
arbitrary interleaving of thread indices.
-/

namespace PerfBE

/-! ### Generic positional-update machinery

`updateFirst l p f` rewrites the first element of `l` satisfying `p` with
`f`, and is the semantics of a MongoDB update (`findOneAndUpdate`,
`updateOne`, positional `$`) on a list of documents / an embedded array. -/

def updateFirst {α : Type} (l : List α) (p : α → Bool) (f : α → α) : List α :=
  match l with
  | [] => []
  | a :: as => if p a then f a :: as else a :: updateFirst as p f

theorem updateFirst_map_key {α : Type} (key : α → Nat) (p : α → Bool) (f : α → α)
    (hf : ∀ a, key (f a) = key a) :
    ∀ l : List α, (updateFirst l p f).map key = l.map key := by
  intro l
  induction l with
  | nil => rfl
  | cons a as ih =>
      by_cases h : p a
      · simp [updateFirst, h, hf]
      · simp [updateFirst, h, ih]

/-- Looking up a key untouched by the update: if every element the predicate
can select has key `k'` and `f` preserves keys, lookups of any other key `k`
are unchanged. -/
theorem find?_updateFirst_ne {α : Type} (key : α → Nat) (p : α → Bool) (f : α → α)
    (k k' : Nat) (hkk : k ≠ k')
    (hp : ∀ a, p a = true → key a = k')
    (hf : ∀ a, key (f a) = key a) :
    ∀ l : List α,
      (updateFirst l p f).find? (fun a => key a == k) = l.find? (fun a => key a == k) := by
  intro l
  induction l with
  | nil => rfl
  | cons a as ih =>
      by_cases h : p a
      · have hka : key a = k' := hp a h
        have hne : (key (f a) == k) = false := by
          simp [hf, hka, Ne.symm hkk]
        have hne' : (key a == k) = false := by
          simp [hka, Ne.symm hkk]
        simp [updateFirst, h, List.find?, hne, hne']
      · by_cases hk : key a = k
        · simp [updateFirst, h, List.find?, hk]
        · have hne' : (key a == k) = false := by simp [hk]
          simp [updateFirst, h, List.find?, hne', ih]

/-- Looking up the updated key when keys are unique: the found document is the
old one, rewritten by `f` exactly when the predicate selected it. -/
theorem find?_updateFirst_eq {α : Type} (key : α → Nat) (p : α → Bool) (f : α → α)
    (k : Nat)
    (hp : ∀ a, p a = true → key a = k)
    (hf : ∀ a, key (f a) = key a) :
    ∀ l : List α, (l.map key).Nodup →
      (updateFirst l p f).find? (fun a => key a == k) =
        (l.find? (fun a => key a == k)).map (fun a => if p a then f a else a) := by
  intro l
  induction l with
  | nil => intro _; rfl
  | cons a as ih =>
      intro hnd
      have hnd' : (as.map key).Nodup := by
        simpa using (List.nodup_cons.mp (by simpa using hnd)).2
      by_cases h : p a
      · have hka : key a = k := hp a h
        have : (key (f a) == k) = true := by simp [hf, hka]
        simp [updateFirst, h, List.find?, this, hka]
      · by_cases hk : key a = k
        · simp [updateFirst, h, List.find?, hk]
        · have hne' : (key a == k) = false := by simp [hk]
          simp [updateFirst, h, List.find?, hne', ih hnd']

/-- If some element satisfies the predicate, the predicate only selects key
`k`, and keys are unique, then the lookup of `k` yields an element satisfying
the predicate (the conditional update's precondition really held for the
targeted document). -/
theorem find?_of_any {α : Type} (key : α → Nat) (p : α → Bool) (k : Nat)
    (hp : ∀ a, p a = true → key a = k) :
    ∀ l : List α, (l.map key).Nodup → l.any p = true →
      ∃ a, l.find? (fun a => key a == k) = some a ∧ p a = true := by
  intro l
  induction l with
  | nil => intro _ h; simp at h
  | cons a as ih =>
      intro hnd hany
      have hnd' : (as.map key).Nodup := by
        simpa using (List.nodup_cons.mp (by simpa using hnd)).2
      by_cases h : p a
      · have hka : key a = k := hp a h
        refine ⟨a, ?_, h⟩
        simp [List.find?, hka]
      · have hany' : as.any p = true := by
          rcases List.any_eq_true.mp hany with ⟨b, hb, hpb⟩
          rcases List.mem_cons.mp hb with hb | hb
          · exact absurd (hb ▸ hpb) h
          · exact List.any_eq_true.mpr ⟨b, hb, hpb⟩
        by_cases hk : key a = k
        · exfalso
          rcases List.any_eq_true.mp hany' with ⟨b, hb, hpb⟩
          have hkb : key b = k := hp b hpb
          have hmem : key a ∉ as.map key := by
            have hcons : (key a :: as.map key).Nodup := by simpa using hnd
            exact (List.nodup_cons.mp hcons).1
          exact hmem (by
            rw [hk, ← hkb]
            exact List.mem_map_of_mem key hb)
        · have hne' : (key a == k) = false := by simp [hk]
          rcases ih hnd' hany' with ⟨b, hfb, hpb⟩
          exact ⟨b, by simp [List.find?, hne', hfb], hpb⟩

/-- A satisfied `any` yields the first satisfying element via `find?`. -/
theorem find?_some_of_any {α : Type} (pred : α → Bool) :
    ∀ l : List α, l.any pred = true → ∃ a, l.find? pred = some a ∧ pred a = true := by
  intro l
  induction l with
  | nil => intro h; simp at h
  | cons x xs ih =>
      intro h
      by_cases hx : pred x = true
      · exact ⟨x, by simp [List.find?, hx], hx⟩
      · have hxs : xs.any pred = true := by
          rcases List.any_eq_true.mp h with ⟨b, hb, hpb⟩
          rcases List.mem_cons.mp hb with hb | hb
          · exact absurd (hb ▸ hpb) hx
          · exact List.any_eq_true.mpr ⟨b, hb, hpb⟩
        rcases ih hxs with ⟨a, hfa, hpa⟩
        have hxf : pred x = false := by simpa using hx
        exact ⟨a, by simp [List.find?, hxf, hfa], hpa⟩

/-- With unique keys, if every predicate match carries key `k` and the key-`k`
element satisfies the predicate, the predicate's first match is that element. -/
theorem find?_pred_of_key {α : Type} (key : α → Nat) (pred : α → Bool) (k : Nat)
    (hp : ∀ a, pred a = true → key a = k) :
    ∀ (l : List α) (a : α), (l.map key).Nodup →
      l.find? (fun x => key x == k) = some a → pred a = true →
      l.find? pred = some a := by
  intro l
  induction l with
  | nil => intro a _ h _; simp at h
  | cons x xs ih =>
      intro a hnd hfind hpa
      have hcons : (key x :: xs.map key).Nodup := by simpa using hnd
      by_cases hx : key x = k
      · have hax : x = a := by
          have hxt : (key x == k) = true := by simp [hx]
          have hsome : some x = some a := by
            rw [← hfind]
            simp [List.find?, hxt]
          exact Option.some.inj hsome
        subst hax
        simp [List.find?, hpa]
      · have hxne : (key x == k) = false := by simp [hx]
        have hfind' : xs.find? (fun x => key x == k) = some a := by
          have h0 := hfind
          simp [List.find?, hxne] at h0
          exact h0
        have hpx : pred x = false := by
          cases hpx : pred x
          · rfl
          · exact absurd (hp x hpx) hx
        simp [List.find?, hpx]
        exact ih a (List.nodup_cons.mp hcons).2 hfind' hpa

/-- Looking up the key of the element the update targeted (the first
predicate match), with unique, `f`-preserved keys: the lookup returns that
element, rewritten by `f`. -/
theorem find?_updateFirst_at_found {α : Type} (key : α → Nat) (pred : α → Bool) (f : α → α)
    (hf : ∀ a, key (f a) = key a) :
    ∀ (l : List α) (p : α), (l.map key).Nodup → l.find? pred = some p →
      (updateFirst l pred f).find? (fun x => key x == key p) = some (f p) := by
  intro l
  induction l with
  | nil => intro p _ h; simp at h
  | cons x xs ih =>
      intro p hnd hfind
      have hcons : (key x :: xs.map key).Nodup := by simpa using hnd
      by_cases hx : pred x = true
      · have hxp : x = p := by
          have hsome : some x = some p := by
            rw [← hfind]
            simp [List.find?, hx]
          exact Option.some.inj hsome
        subst hxp
        have hkey : (key (f x) == key x) = true := by simp [hf]
        simp [updateFirst, hx, List.find?, hkey]
      · have hxf : pred x = false := by simpa using hx
        have hfind' : xs.find? pred = some p := by
          have h0 := hfind
          simp [List.find?, hxf] at h0
          exact h0
        have hpmem : p ∈ xs := List.mem_of_find?_eq_some hfind'
        have hkne : key x ≠ key p := by
          intro he
          have hmem : key x ∈ xs.map key := by
            rw [he]
            exact List.mem_map_of_mem key hpmem
          exact (List.nodup_cons.mp hcons).1 hmem
        have hne : (key x == key p) = false := by simp [hkne]
        simp [updateFirst, hxf, List.find?, hne]
        exact ih p (List.nodup_cons.mp hcons).2 hfind'

/-- Looking up any key other than the targeted element's: untouched (the
update rewrote only the first predicate match, whose key is `key p`). -/
theorem find?_updateFirst_ne_found {α : Type} (key : α → Nat) (pred : α → Bool) (f : α → α)
    (hf : ∀ a, key (f a) = key a) :
    ∀ (l : List α) (p : α) (q : Nat), l.find? pred = some p → q ≠ key p →
      (updateFirst l pred f).find? (fun x => key x == q) = l.find? (fun x => key x == q) := by
  intro l
  induction l with
  | nil => intro p q h _; simp at h
  | cons x xs ih =>
      intro p q hfind hq
      by_cases hx : pred x = true
      · have hxp : x = p := by
          have hsome : some x = some p := by
            rw [← hfind]
            simp [List.find?, hx]
          exact Option.some.inj hsome
        subst hxp
        have h1 : (key (f x) == q) = false := by simp [hf, Ne.symm hq]
        have h2 : (key x == q) = false := by simp [Ne.symm hq]
        simp [updateFirst, hx, List.find?, h1, h2]
      · have hxf : pred x = false := by simpa using hx
        have hfind' : xs.find? pred = some p := by
          have h0 := hfind
          simp [List.find?, hxf] at h0
          exact h0
        by_cases hk : (key x == q) = true
        · simp [updateFirst, hxf, List.find?, hk]
        · have hk' : (key x == q) = false := by simpa using hk
          simp [updateFirst, hxf, List.find?, hk']
          exact ih p q hfind' hq

/-- With unique keys, a member with key `k` is what the key lookup returns. -/
theorem find?_eq_of_mem_nodup {α : Type} (key : α → Nat) (k : Nat) :
    ∀ (l : List α) (a : α), (l.map key).Nodup → a ∈ l → key a = k →
      l.find? (fun x => key x == k) = some a := by
  intro l
  induction l with
  | nil => intro a _ ha _; simp at ha
  | cons x xs ih =>
      intro a hnd ha hk
      have hcons : (key x :: xs.map key).Nodup := by simpa using hnd
      by_cases hx : key x = k
      · have hax : a = x := by
          rcases List.mem_cons.mp ha with h | h
          · exact h
          · exfalso
            have : key x ∈ xs.map key := by
              rw [hx, ← hk]
              exact List.mem_map_of_mem key h
            exact (List.nodup_cons.mp hcons).1 this
        rw [hax]
        simp [List.find?, hx]
      · have hacons : a ∈ xs := by
          rcases List.mem_cons.mp ha with h | h
          · exact absurd (h ▸ hk) hx
          · exact h
        have hne : (key x == k) = false := by simp [hx]
        simp [List.find?, hne]
        exact ih a (List.nodup_cons.mp hcons).2 hacons hk

/-! ### Data model

From `src/src/model/flash-sale.model.ts` and `src/src/model/purchase.model.ts`
together with the fields the `purchaseProduct` handler and the reaper write
(`status`, `paymentReference`, `expiresAt`).  Mongo ObjectIds are modelled as
`Nat`; `Date`s as `Nat` milliseconds; stock counters as `Int`, since `$inc`
itself is unguarded.  One model revision names the line-item array `assets`,
the handler revision names it `products`; the embedding uses `products`.
`createdBy`, `title`, `description` and the master `Product`/`Asset`
collection (whose stock only the admin CRUD handlers touch) carry no claim
and are omitted. -/

inductive SaleStatus
  | scheduled | active | ended | cancelled
  deriving DecidableEq, Repr

structure SaleProduct where
  productId : Nat
  salePrice : Nat
  stockLimit : Int
  stockRemaining : Int
  deriving DecidableEq, Repr

structure FlashSale where
  id : Nat
  products : List SaleProduct
  startTime : Nat
  endTime : Nat
  isActive : Bool
  status : SaleStatus
  deriving DecidableEq, Repr

/-- Purchase (reservation) status, written by the handler (`'pending'`), the
reaper (`'expired'`) and the settlement path (`'completed'`/`'failed'`). -/
inductive PStatus
  | pending | completed | failed | expired
  deriving DecidableEq, Repr

structure PurchaseRec where
  id : Nat
  userId : Nat
  flashSaleId : Nat
  productId : Nat
  price : Nat
  status : PStatus
  paymentReference : Nat
  expiresAt : Nat
  deriving DecidableEq, Repr

/-- The durable store: the `flashsales` and `purchases` collections.
`nextId` models Mongo's ObjectId generation for inserted purchase rows. -/
structure Store where
  sales : List FlashSale
  purchases : List PurchaseRec
  nextId : Nat
  deriving DecidableEq, Repr

/-- Well-formedness of a store snapshot: document ids are unique (Mongo `_id`
and, per sale, the intended one-entry-per-product line-item array), and
`nextId` is fresh. -/
structure WfStore (st : Store) : Prop where
  salesNodup : (st.sales.map FlashSale.id).Nodup
  productsNodup : ∀ s ∈ st.sales, (s.products.map SaleProduct.productId).Nodup
  purchasesNodup : (st.purchases.map PurchaseRec.id).Nodup
  nextIdFresh : ∀ p ∈ st.purchases, p.id < st.nextId

instance (st : Store) : Decidable (WfStore st) :=
  decidable_of_iff
    ((st.sales.map FlashSale.id).Nodup ∧
      (∀ s ∈ st.sales, (s.products.map SaleProduct.productId).Nodup) ∧
      (st.purchases.map PurchaseRec.id).Nodup ∧
      ∀ p ∈ st.purchases, p.id < st.nextId)
    ⟨fun ⟨a, b, c, d⟩ => ⟨a, b, c, d⟩, fun ⟨a, b, c, d⟩ => ⟨a, b, c, d⟩⟩

/-! ### Store operations of the purchase flow

Each definition is one Mongo call of `purchaseProduct`
(`flash-sale.controller.ts`, lines 333–431). -/

/-- Lines 338–344: `FlashSale.findOne({_id, status: 'active', isActive: true,
startTime: {$lte: now}, endTime: {$gte: now}})`. -/
def findActiveSale (st : Store) (saleId now : Nat) : Option FlashSale :=
  st.sales.find? fun s =>
    s.id == saleId && s.status == SaleStatus.active && s.isActive &&
      s.startTime ≤ now && now ≤ s.endTime

/-- Plain `findById`-style lookup (no status filter). -/
def findSale (st : Store) (saleId : Nat) : Option FlashSale :=
  st.sales.find? (fun s => s.id == saleId)

/-- `stockRemaining` of one line item, as stored. -/
def stockOf (st : Store) (saleId pid : Nat) : Option Int :=
  (findSale st saleId).bind fun s =>
    (s.products.find? (fun p => p.productId == pid)).map SaleProduct.stockRemaining

/-- `stockLimit` of one line item, as stored. -/
def stockLimitOf (st : Store) (saleId pid : Nat) : Option Int :=
  (findSale st saleId).bind fun s =>
    (s.products.find? (fun p => p.productId == pid)).map SaleProduct.stockLimit

/-- The per-element conjunction of the decrement filter's two array
conditions: this element has the requested `productId` *and* a positive
counter. -/
def decPred (pid : Nat) (p : SaleProduct) : Bool :=
  p.productId == pid && 0 < p.stockRemaining

/-- The last array condition of the decrement filter alone:
`stockRemaining > 0`. -/
def posPred (p : SaleProduct) : Bool := 0 < p.stockRemaining

/-- Document-level filter of the conditional decrement.  The source filter
`{_id, 'products.productId': pid, 'products.stockRemaining': {$gt: 0}}` uses
dot notation with no `$elemMatch`, so MongoDB matches the document when each
array condition is satisfied by *some* element — possibly different ones. -/
def decDocPred (saleId pid : Nat) (s : FlashSale) : Bool :=
  s.id == saleId && s.products.any (fun p => p.productId == pid) &&
    s.products.any posPred

/-- The `$inc: {'products.$.stockRemaining': -1}` payload on one element. -/
def decItem (p : SaleProduct) : SaleProduct :=
  { p with stockRemaining := p.stockRemaining - 1 }

/-- `$inc: {'products.$.stockRemaining': -1}` applied to the matched document,
with the positional `$` resolved to the first element satisfying `epred`. -/
def decApply (st : Store) (saleId pid : Nat) (epred : SaleProduct → Bool) : Store :=
  { st with
    sales := updateFirst st.sales (decDocPred saleId pid) fun s =>
      { s with products := updateFirst s.products epred decItem } }

/-- Lines 369–379: the atomic conditional decrement
`FlashSale.findOneAndUpdate({_id, 'products.productId': pid,
'products.stockRemaining': {$gt: 0}}, {$inc: {'products.$.stockRemaining': -1}})`.
`none` means the filter matched no document (the handler then throws
`RESOURCE_EXHAUSTED`), and nothing is written.  On a match, the positional
`$` is bound to the first element satisfying the conjunction of the two array
conditions when such an element exists (the unambiguous case); otherwise —
the mixed state that dot notation without `$elemMatch` admits — to the first
element satisfying the last array condition, `stockRemaining > 0`.  The
result carries the `productId` of the element the `$`-write landed on,
together with the written store. -/
def decStock (st : Store) (saleId pid : Nat) : Option (Nat × Store) :=
  (st.sales.find? (decDocPred saleId pid)).map fun sale =>
    if sale.products.any (decPred pid) then
      (pid, decApply st saleId pid (decPred pid))
    else
      (((sale.products.find? posPred).map SaleProduct.productId).getD pid,
        decApply st saleId pid posPred)

/-- Lines 398–401 (rollback) and server.ts line 151–155 (reaper stock
return): `FlashSale.updateOne({_id, 'products.productId': pid},
{$inc: {'products.$.stockRemaining': 1}})`; its result is ignored, so a
non-matching filter is a no-op. -/
def incStock (st : Store) (saleId pid : Nat) : Store :=
  let docPred := fun (s : FlashSale) => s.id == saleId && s.products.any (fun p => p.productId == pid)
  if st.sales.any docPred then
    { st with
      sales := updateFirst st.sales docPred fun s =>
        { s with products := updateFirst s.products (fun p => p.productId == pid) fun p =>
            { p with stockRemaining := p.stockRemaining + 1 } } }
  else st

/-- The application-level duplicate pre-check and the unique-index predicate:
a row with this `(userId, flashSaleId)` already exists
(`purchase.model.ts` line 39: `index({userId: 1, flashSaleId: 1}, {unique: true})`). -/
def hasPurchaseFor (st : Store) (userId saleId : Nat) : Bool :=
  st.purchases.any fun p => p.userId == userId && p.flashSaleId == saleId

/-- Lines 406–414: `Purchase.create({..., status: 'pending', paymentReference,
expiresAt})`.  The insert is refused (Mongo `E11000`) when it would violate
the unique `(userId, flashSaleId)` index; `none` models the thrown
duplicate-key error, with nothing written. -/
def createPurchase (st : Store) (userId saleId pid price ref expiresAt : Nat) :
    Option Store :=
  if hasPurchaseFor st userId saleId then none
  else some { st with
    purchases := st.purchases ++
      [{ id := st.nextId, userId := userId, flashSaleId := saleId, productId := pid,
         price := price, status := PStatus.pending, paymentReference := ref,
         expiresAt := expiresAt }],
    nextId := st.nextId + 1 }

/-- server.ts lines 147–148: `purchase.status = 'expired'; await
purchase.save()` — a Mongoose document save, i.e. an unconditional write of
the modified field keyed on `_id` alone (no status precondition). -/
def savePurchaseStatus (st : Store) (rowId : Nat) (s : PStatus) : Store :=
  let rows := updateFirst st.purchases (fun p => p.id == rowId) (fun p => { p with status := s })
  { st with purchases := rows }

/-- Modelled from the spec: the payment-success settlement handler (§4.3) is
not under src (only its `/webhook` route registration is); per the spec it
transitions the matching *pending* Reservation to `completed` with a
status-guarded conditional update, and re-processing a terminal Reservation
is a no-op. -/
def settlePaymentSuccess (st : Store) (ref : Nat) : Store :=
  let rows := updateFirst st.purchases
    (fun p => p.paymentReference == ref && p.status == PStatus.pending)
    (fun p => { p with status := PStatus.completed })
  { st with purchases := rows }

/-- Status of one purchase row. -/
def statusOfRow (st : Store) (rowId : Nat) : Option PStatus :=
  (st.purchases.find? (fun p => p.id == rowId)).map PurchaseRec.status

/-! ### Admin lifecycle operations (`flash-sale.controller.ts`) -/

/-- Lines 249–265: `activateFlashSale` =
`FlashSale.findByIdAndUpdate(id, {isActive: true, status: 'active'})` —
unconditional on the previous status; `none` is the 404 branch. -/
def activateFlashSale (st : Store) (saleId : Nat) : Option Store :=
  if st.sales.any (fun s => s.id == saleId) then
    let sales := updateFirst st.sales (fun s => s.id == saleId)
      (fun s => { s with isActive := true, status := SaleStatus.active })
    some { st with sales := sales }
  else none

/-- Lines 272–296: `deactivateFlashSale` — zeroes each line item's
`stockRemaining`, then sets `isActive = false`, `status = 'cancelled'` and
saves.  (The master `Product` stock return is outside the modelled store.) -/
def deactivateFlashSale (st : Store) (saleId : Nat) : Option Store :=
  if st.sales.any (fun s => s.id == saleId) then
    let sales := updateFirst st.sales (fun s => s.id == saleId)
      (fun s => { s with
        products := s.products.map (fun p => { p with stockRemaining := 0 }),
        isActive := false, status := SaleStatus.cancelled })
    some { st with sales := sales }
  else none

/-- server.ts lines 186–213: the 3-minute status sync — every sale with
`status ∈ {scheduled, active}` and `endTime < now` is saved with
`status = 'ended'`, `isActive = false`.  (Master `Asset` stock return is
outside the modelled store.)  Modelled as one pass over the collection. -/
def syncEndedSales (st : Store) (now : Nat) : Store :=
  let sales := st.sales.map fun s =>
    if (s.status == SaleStatus.scheduled || s.status == SaleStatus.active) && s.endTime < now
    then { s with status := SaleStatus.ended, isActive := false }
    else s
  { st with sales := sales }

/-! ### The concurrent small-step system

One thread per in-flight request or background tick.  A purchase request
executes `purchaseProduct` ( `flash-sale.controller.ts` lines 333–431 ) as a
sequence of atomic store accesses in program order; a reaper thread executes
one 2-minute cleanup tick (server.ts lines 138–181); a settle thread delivers
one payment-success notification (spec-modelled, §4.3).  A schedule is a list
of thread indices; reads are snapshots, and every write is a single
(atomic-at-the-store) step, so schedules cover the interleavings of the
event-loop handlers. -/

/-- The inputs of one `purchaseProduct` request.  `paymentOk` is the outcome
of the external `paystackService.initializeTransaction` collaborator
(`null` return = failure); `paymentRef` the generated `uuidv4()`. -/
structure PReq where
  userId : Nat
  saleId : Nat
  productId : Nat
  paymentRef : Nat
  now : Nat
  paymentOk : Bool
  deriving DecidableEq, Repr

/-- The user-facing failure taxonomy of the purchase flow:
* `saleNotActive` — line 347 (`'Flash sale is not active or not found'`, 404);
* `itemNotInSale` — line 353 (`'Product not found in this flash sale'`, 404);
* `outOfStock` — lines 359/382 (`'RESOURCE_EXHAUSTED'`, 400);
* `alreadyParticipated` — line 365 (`'SINGLE_UNIT_POLICY: You have already
  participated in this acquisition window'`, 400);
* `paymentInitFailed` — line 402 (`'Payment initialization failed'`, 500);
* `duplicateKey` — an uncaught Mongo `E11000` from `Purchase.create`, mapped
  by `error.controller.ts` lines 19–37 to 409 `'... already exists with value ...'`. -/
inductive PError
  | saleNotActive | itemNotInSale | outOfStock | alreadyParticipated
  | paymentInitFailed | duplicateKey
  deriving DecidableEq, Repr

/-- Program counter of a purchase request.  `checked` holds the snapshot
`salePrice` read at line 356; the hold duration `expiresAt = now + 10 min`
(line 387) is recomputed at insert time from the request. -/
inductive PPhase
  | start
  | preDec (price : Nat)
  | preInit (price : Nat)
  | preFail
  | preCreate (price : Nat)
  | ok
  | err (e : PError)
  deriving DecidableEq, Repr

/-- Program counter of one reaper tick: `sweepSave l` is about to
`save()` the head of the snapshot `l`; `sweepInc p rest` is about to return
the head's stock. -/
inductive RPhase
  | start
  | sweepSave (snap : List PurchaseRec)
  | sweepInc (cur : PurchaseRec) (rest : List PurchaseRec)
  | done
  deriving DecidableEq, Repr

inductive Thread
  | purchase (req : PReq) (ph : PPhase)
  | reaper (now : Nat) (ph : RPhase)
  | settle (ref : Nat) (delivered : Bool)
  deriving DecidableEq, Repr

/-- Label naming the store mutation a step committed (for counting
decrements/increments of a line item's counter). -/
inductive Eff
  | dec (saleId pid : Nat)
  | inc (saleId pid : Nat)
  | insert (userId saleId : Nat)
  | other
  deriving DecidableEq, Repr

/-- 10 minutes, in ms (line 387). -/
def holdMs : Nat := 10 * 60 * 1000

/-- One atomic step of one thread against the store. -/
def stepThread (st : Store) (t : Thread) : Store × Thread × Eff :=
  match t with
  | Thread.purchase req ph =>
    match ph with
    | PPhase.start =>
      -- lines 338–366: the reads and pure checks before the first write
      match findActiveSale st req.saleId req.now with
      | none => (st, Thread.purchase req (PPhase.err PError.saleNotActive), Eff.other)
      | some sale =>
        match sale.products.find? (fun p => p.productId == req.productId) with
        | none => (st, Thread.purchase req (PPhase.err PError.itemNotInSale), Eff.other)
        | some sp =>
          if sp.stockRemaining ≤ 0 then
            (st, Thread.purchase req (PPhase.err PError.outOfStock), Eff.other)
          else if hasPurchaseFor st req.userId req.saleId then
            (st, Thread.purchase req (PPhase.err PError.alreadyParticipated), Eff.other)
          else
            (st, Thread.purchase req (PPhase.preDec sp.salePrice), Eff.other)
    | PPhase.preDec price =>
      -- lines 369–383: the guarded atomic decrement; the effect label records
      -- the line item the positional write actually landed on
      match decStock st req.saleId req.productId with
      | none => (st, Thread.purchase req (PPhase.err PError.outOfStock), Eff.other)
      | some (wpid, st') =>
        (st', Thread.purchase req (PPhase.preInit price), Eff.dec req.saleId wpid)
    | PPhase.preInit price =>
      -- lines 389–396: external payment initialization (no store access)
      if req.paymentOk then (st, Thread.purchase req (PPhase.preCreate price), Eff.other)
      else (st, Thread.purchase req PPhase.preFail, Eff.other)
    | PPhase.preFail =>
      -- lines 398–402: roll the decrement back, then throw
      (incStock st req.saleId req.productId,
        Thread.purchase req (PPhase.err PError.paymentInitFailed),
        Eff.inc req.saleId req.productId)
    | PPhase.preCreate price =>
      -- lines 406–414: the ledger insert; E11000 propagates uncaught
      match createPurchase st req.userId req.saleId req.productId price
          req.paymentRef (req.now + holdMs) with
      | none => (st, Thread.purchase req (PPhase.err PError.duplicateKey), Eff.other)
      | some st' => (st', Thread.purchase req PPhase.ok, Eff.insert req.userId req.saleId)
    | PPhase.ok => (st, t, Eff.other)
    | PPhase.err _ => (st, t, Eff.other)
  | Thread.reaper now ph =>
    match ph with
    | RPhase.start =>
      -- server.ts lines 141–144: Purchase.find({status: 'pending', expiresAt: {$lt: now}})
      let snap := st.purchases.filter fun p =>
        p.status == PStatus.pending && p.expiresAt < now
      (st, Thread.reaper now (RPhase.sweepSave snap), Eff.other)
    | RPhase.sweepSave [] => (st, Thread.reaper now RPhase.done, Eff.other)
    | RPhase.sweepSave (p :: rest) =>
      -- lines 147–148: status := 'expired'; save()  (keyed on _id only)
      (savePurchaseStatus st p.id PStatus.expired,
        Thread.reaper now (RPhase.sweepInc p rest), Eff.other)
    | RPhase.sweepInc p rest =>
      -- lines 151–155: return the unit of stock to the owning line item
      (incStock st p.flashSaleId p.productId,
        Thread.reaper now (RPhase.sweepSave rest), Eff.inc p.flashSaleId p.productId)
    | RPhase.done => (st, t, Eff.other)
  | Thread.settle ref delivered =>
    if delivered then (st, t, Eff.other)
    else (settlePaymentSuccess st ref, Thread.settle ref true, Eff.other)

structure Sys where
  store : Store
  threads : List Thread
  deriving DecidableEq, Repr

/-- Run one step of thread `i` (out-of-range indices are no-ops). -/
def stepSysE (sys : Sys) (i : Nat) : Sys × Eff :=
  match sys.threads.get? i with
  | none => (sys, Eff.other)
  | some t =>
    let r := stepThread sys.store t
    ({ store := r.1, threads := sys.threads.set i r.2.1 }, r.2.2)

/-- Run a schedule, collecting the committed-effect trace. -/
def runE (sys : Sys) : List Nat → Sys × List Eff
  | [] => (sys, [])
  | i :: rest =>
    let r := stepSysE sys i
    let r' := runE r.1 rest
    (r'.1, r.2 :: r'.2)

def runSys (sys : Sys) (sched : List Nat) : Sys := (runE sys sched).1

/-- Decrements of one line item's counter committed along a trace. -/
def countDec (effs : List Eff) (saleId pid : Nat) : Nat :=
  effs.countP (fun e => e == Eff.dec saleId pid)

/-- Increments (compensations / stock returns) of one line item's counter
committed along a trace. -/
def countInc (effs : List Eff) (saleId pid : Nat) : Nat :=
  effs.countP (fun e => e == Eff.inc saleId pid)

/-- Purchase rows held by `(userId, flashSaleId)`. -/
def rowsFor (st : Store) (userId saleId : Nat) : Nat :=
  st.purchases.countP (fun p => p.userId == userId && p.flashSaleId == saleId)

/-! ### Basic facts about the store operations -/

theorem mem_updateFirst {α : Type} (p : α → Bool) (f : α → α) :
    ∀ (l : List α), ∀ b ∈ updateFirst l p f, b ∈ l ∨ ∃ a ∈ l, b = f a := by
  intro l
  induction l with
  | nil => intro b hb; simp [updateFirst] at hb
  | cons a as ih =>
      intro b hb
      by_cases h : p a
      · simp only [updateFirst, h, if_pos] at hb
        rcases List.mem_cons.mp hb with hb | hb
        · exact Or.inr ⟨a, List.mem_cons_self a as, hb⟩
        · exact Or.inl (List.mem_cons_of_mem a hb)
      · simp only [updateFirst, h, if_neg, not_false_iff] at hb
        rcases List.mem_cons.mp hb with hb | hb
        · exact Or.inl (by simp [hb])
        · rcases ih b hb with h' | ⟨c, hc, hbc⟩
          · exact Or.inl (List.mem_cons_of_mem a h')
          · exact Or.inr ⟨c, List.mem_cons_of_mem a hc, hbc⟩

theorem countP_updateFirst {α : Type} (q p : α → Bool) (f : α → α)
    (hqf : ∀ a, q (f a) = q a) :
    ∀ l : List α, (updateFirst l p f).countP q = l.countP q := by
  intro l
  induction l with
  | nil => rfl
  | cons a as ih =>
      by_cases h : p a
      · simp [updateFirst, h, List.countP_cons, hqf]
      · simp [updateFirst, h, List.countP_cons, ih]

theorem bandi {a b : Bool} (ha : a = true) (hb : b = true) : (a && b) = true := by
  simp [ha, hb]

theorem bandl {a b : Bool} (h : (a && b) = true) : a = true := by
  simp only [Bool.and_eq_true] at h
  exact h.1

theorem bandr {a b : Bool} (h : (a && b) = true) : b = true := by
  simp only [Bool.and_eq_true] at h
  exact h.2

/-- The filter of the conditional decrement only selects the sale document
with the requested `_id`. -/
theorem decDocPred_id (saleId pid : Nat) :
    ∀ s : FlashSale, decDocPred saleId pid s = true → s.id = saleId := by
  intro s h
  unfold decDocPred at h
  exact by simpa using bandl (bandl h)

theorem incDocPred_key (saleId pid : Nat) :
    ∀ s : FlashSale,
      (s.id == saleId && s.products.any (fun p => p.productId == pid)) = true → s.id = saleId := by
  intro s h
  exact by simpa using bandl h

/-- Any sales-collection update that preserves each document's `_id` and its
line-item key list preserves store well-formedness. -/
theorem wf_salesUpdate (st : Store) (docPred : FlashSale → Bool) (F : FlashSale → FlashSale)
    (hid : ∀ s, (F s).id = s.id)
    (hkeys : ∀ s, ((F s).products.map SaleProduct.productId) = s.products.map SaleProduct.productId)
    (hwf : WfStore st) :
    WfStore { st with sales := updateFirst st.sales docPred F } := by
  refine ⟨?_, ?_, hwf.purchasesNodup, hwf.nextIdFresh⟩
  · have hkey := updateFirst_map_key FlashSale.id docPred F hid st.sales
    simpa [hkey] using hwf.salesNodup
  · intro s hs
    rcases mem_updateFirst _ _ _ s hs with hmem | ⟨a, hamem, rfl⟩
    · exact hwf.productsNodup s hmem
    · rw [hkeys a]
      exact hwf.productsNodup a hamem

/-- What one committed `decApply` does, given the matched document and the
`$`-bound element: that element's counter goes down by one, every other
line item (in this sale and every other sale) is untouched, as are the
purchase rows, the id counter and well-formedness. -/
theorem decApply_effect (st : Store) (saleId pid : Nat) (sale : FlashSale)
    (epred : SaleProduct → Bool) (p : SaleProduct)
    (hwf : WfStore st)
    (hfind : st.sales.find? (decDocPred saleId pid) = some sale)
    (hfp : sale.products.find? epred = some p) :
    stockOf st saleId p.productId = some p.stockRemaining ∧
    stockOf (decApply st saleId pid epred) saleId p.productId = some (p.stockRemaining - 1) ∧
    (∀ sid' q, ¬(sid' = saleId ∧ q = p.productId) →
      stockOf (decApply st saleId pid epred) sid' q = stockOf st sid' q) ∧
    WfStore (decApply st saleId pid epred) ∧
    (decApply st saleId pid epred).purchases = st.purchases ∧
    (decApply st saleId pid epred).nextId = st.nextId := by
  have hdp : decDocPred saleId pid sale = true := List.find?_some hfind
  have hsid : sale.id = saleId := decDocPred_id saleId pid sale hdp
  have hsmem : sale ∈ st.sales := List.mem_of_find?_eq_some hfind
  have hfsale : st.sales.find? (fun s => s.id == saleId) = some sale :=
    find?_eq_of_mem_nodup FlashSale.id saleId st.sales sale hwf.salesNodup hsmem hsid
  have hpnd : (sale.products.map SaleProduct.productId).Nodup := hwf.productsNodup sale hsmem
  have hpmem : p ∈ sale.products := List.mem_of_find?_eq_some hfp
  have hfp0 : sale.products.find? (fun x => x.productId == p.productId) = some p :=
    find?_eq_of_mem_nodup SaleProduct.productId p.productId sale.products p hpnd hpmem rfl
  have hsales := find?_updateFirst_at_found FlashSale.id (decDocPred saleId pid)
    (fun s => { s with products := updateFirst s.products epred decItem })
    (fun a => rfl) st.sales sale hwf.salesNodup hfind
  rw [hsid] at hsales
  have hinner := find?_updateFirst_at_found SaleProduct.productId epred decItem
    (fun a => rfl) sale.products p hpnd hfp
  refine ⟨?_, ?_, ?_, ?_, rfl, rfl⟩
  · unfold stockOf findSale
    rw [hfsale]
    simp [hfp0]
  · unfold decApply stockOf findSale
    simp only
    rw [hsales]
    simp only [Option.some_bind]
    rw [hinner]
    rfl
  · intro sid' q hne
    by_cases hss : sid' = saleId
    · subst hss
      have hq : q ≠ p.productId := fun hq => hne ⟨rfl, hq⟩
      unfold decApply stockOf findSale
      simp only
      rw [hsales, hfsale]
      simp only [Option.some_bind]
      rw [find?_updateFirst_ne_found SaleProduct.productId epred decItem
        (fun a => rfl) sale.products p q hfp hq]
    · have hsne := find?_updateFirst_ne_found FlashSale.id (decDocPred saleId pid)
        (fun s => { s with products := updateFirst s.products epred decItem })
        (fun a => rfl) st.sales sale sid' hfind (by rw [hsid]; exact hss)
      unfold decApply stockOf findSale
      simp only
      rw [hsne]
  · unfold decApply
    exact wf_salesUpdate st (decDocPred saleId pid)
      (fun s => { s with products := updateFirst s.products epred decItem })
      (fun s => rfl)
      (fun s => updateFirst_map_key SaleProduct.productId epred decItem (fun a => rfl) s.products)
      hwf

/-- A committed conditional decrement really wrote one line item of the
matched sale — the one the positional `$` selected, whose counter was
positive — decrementing exactly it by one; no other line item, no purchase
row and no id counter is touched, and well-formedness is kept. -/
theorem decStock_some (st : Store) (saleId pid wpid : Nat) (st' : Store)
    (hwf : WfStore st) (h : decStock st saleId pid = some (wpid, st')) :
    ∃ v : Int, stockOf st saleId wpid = some v ∧ 0 < v ∧
      stockOf st' saleId wpid = some (v - 1) ∧
      (∀ sid' q, ¬(sid' = saleId ∧ q = wpid) → stockOf st' sid' q = stockOf st sid' q) ∧
      WfStore st' ∧ st'.purchases = st.purchases ∧ st'.nextId = st.nextId := by
  unfold decStock at h
  cases hfind : st.sales.find? (decDocPred saleId pid) with
  | none => rw [hfind] at h; simp at h
  | some sale =>
      rw [hfind] at h
      simp only [Option.map_some'] at h
      by_cases ht : sale.products.any (decPred pid) = true
      · rw [if_pos ht] at h
        obtain ⟨p, hfp, hpp⟩ := find?_some_of_any (decPred pid) sale.products ht
        have hpp' : (p.productId == pid && decide (0 < p.stockRemaining)) = true := hpp
        have hpid : p.productId = pid := by simpa using bandl hpp'
        have hpos : 0 < p.stockRemaining := by simpa using bandr hpp'
        have hinj := Option.some.inj h
        have heq1 : pid = wpid := congrArg Prod.fst hinj
        have heq2 : decApply st saleId pid (decPred pid) = st' := congrArg Prod.snd hinj
        subst heq1
        subst heq2
        obtain ⟨h1, h2, h3, h4, h5, h6⟩ :=
          decApply_effect st saleId pid sale (decPred pid) p hwf hfind hfp
        rw [hpid] at h1 h2 h3
        exact ⟨p.stockRemaining, h1, hpos, h2, h3, h4, h5, h6⟩
      · rw [if_neg ht] at h
        have hdp : decDocPred saleId pid sale = true := List.find?_some hfind
        have hanyPos : sale.products.any posPred = true := by
          unfold decDocPred at hdp
          exact bandr hdp
        obtain ⟨p, hfp, hpp⟩ := find?_some_of_any posPred sale.products hanyPos
        have hpos : 0 < p.stockRemaining := by
          unfold posPred at hpp
          simpa using hpp
        rw [hfp] at h
        simp only [Option.map_some', Option.getD_some] at h
        have hinj := Option.some.inj h
        have heq1 : p.productId = wpid := congrArg Prod.fst hinj
        have heq2 : decApply st saleId pid posPred = st' := congrArg Prod.snd hinj
        subst heq1
        subst heq2
        obtain ⟨h1, h2, h3, h4, h5, h6⟩ :=
          decApply_effect st saleId pid sale posPred p hwf hfind hfp
        exact ⟨p.stockRemaining, h1, hpos, h2, h3, h4, h5, h6⟩

/-- When the requested line item itself still has a positive counter, both
array conditions are met by that same element, the filter matches, and the
positional update targets exactly the requested item (the unambiguous
regime — always the case on single-line-item windows). -/
theorem decStock_pos (st : Store) (saleId pid : Nat) (v : Int)
    (hwf : WfStore st) (hv : stockOf st saleId pid = some v) (hpos : 0 < v) :
    ∃ st', decStock st saleId pid = some (pid, st') := by
  unfold stockOf findSale at hv
  rcases hfind : st.sales.find? (fun s => s.id == saleId) with _ | s
  · rw [hfind] at hv; simp at hv
  · rw [hfind] at hv
    simp only [Option.some_bind] at hv
    rcases hpfind : s.products.find? (fun p => p.productId == pid) with _ | p
    · rw [hpfind] at hv; simp at hv
    · rw [hpfind] at hv
      replace hv : p.stockRemaining = v := by simpa using hv
      have hsid : s.id = saleId := by
        have := List.find?_some hfind; simpa using this
      have hpid : p.productId = pid := by
        have := List.find?_some hpfind; simpa using this
      have hpmem : p ∈ s.products := List.mem_of_find?_eq_some hpfind
      have hsmem : s ∈ st.sales := List.mem_of_find?_eq_some hfind
      have hdpp : decPred pid p = true := by
        unfold decPred
        refine bandi (by simp [hpid]) ?_
        rw [hv]
        simpa using hpos
      have hdp : decDocPred saleId pid s = true := by
        unfold decDocPred
        refine bandi (bandi (by simp [hsid]) ?_) ?_
        · exact List.any_eq_true.mpr ⟨p, hpmem, by simp [hpid]⟩
        · refine List.any_eq_true.mpr ⟨p, hpmem, ?_⟩
          unfold posPred
          rw [hv]
          simpa using hpos
      have hfd : st.sales.find? (decDocPred saleId pid) = some s :=
        find?_pred_of_key FlashSale.id (decDocPred saleId pid) saleId
          (decDocPred_id saleId pid) st.sales s hwf.salesNodup hfind hdp
      have ht : s.products.any (decPred pid) = true :=
        List.any_eq_true.mpr ⟨p, hpmem, hdpp⟩
      refine ⟨decApply st saleId pid (decPred pid), ?_⟩
      unfold decStock
      rw [hfd]
      simp only [Option.map_some']
      rw [if_pos ht]

/-- A conditional decrement that matched no document (`findOneAndUpdate`
returned `null`) writes nothing, and then the requested line item, if it is
stored at all, already has counter `≤ 0` (had it been positive, its own
element would have satisfied both array conditions). -/
theorem decStock_none (st : Store) (saleId pid : Nat)
    (h : decStock st saleId pid = none) :
    ∀ v, stockOf st saleId pid = some v → v ≤ 0 := by
  intro v hv
  by_contra hpos
  push_neg at hpos
  -- from stockOf = some v with v > 0, rebuild a document match
  unfold stockOf findSale at hv
  rcases hfind : st.sales.find? (fun s => s.id == saleId) with _ | s
  · rw [hfind] at hv; simp at hv
  · rw [hfind] at hv
    simp only [Option.some_bind] at hv
    rcases hpfind : s.products.find? (fun p => p.productId == pid) with _ | p
    · rw [hpfind] at hv; simp at hv
    · rw [hpfind] at hv
      replace hv : p.stockRemaining = v := by simpa using hv
      have hsid : s.id = saleId := by
        have := List.find?_some hfind; simpa using this
      have hpid : p.productId = pid := by
        have := List.find?_some hpfind; simpa using this
      have hpmem : p ∈ s.products := List.mem_of_find?_eq_some hpfind
      have hsmem : s ∈ st.sales := List.mem_of_find?_eq_some hfind
      have hdp : decDocPred saleId pid s = true := by
        unfold decDocPred
        refine bandi (bandi (by simp [hsid]) ?_) ?_
        · exact List.any_eq_true.mpr ⟨p, hpmem, by simp [hpid]⟩
        · refine List.any_eq_true.mpr ⟨p, hpmem, ?_⟩
          unfold posPred
          rw [hv]
          simpa using hpos
      unfold decStock at h
      cases hfd : st.sales.find? (decDocPred saleId pid) with
      | none => exact (List.find?_eq_none.mp hfd s hsmem) hdp
      | some sale => rw [hfd] at h; simp at h

/-- The unguarded `$inc: +1` adds one to the line item's counter whenever the
item exists. -/
theorem incStock_stockOf_self (st : Store) (saleId pid : Nat) (v : Int)
    (hwf : WfStore st) (hv : stockOf st saleId pid = some v) :
    stockOf (incStock st saleId pid) saleId pid = some (v + 1) := by
  unfold stockOf findSale at hv
  rcases hfind : st.sales.find? (fun s => s.id == saleId) with _ | s
  · rw [hfind] at hv; simp at hv
  · rw [hfind] at hv
    simp only [Option.some_bind] at hv
    rcases hpfind : s.products.find? (fun p => p.productId == pid) with _ | p
    · rw [hpfind] at hv; simp at hv
    · rw [hpfind] at hv
      replace hv : p.stockRemaining = v := by simpa using hv
      have hsid : s.id = saleId := by
        have := List.find?_some hfind; simpa using this
      have hpid : p.productId = pid := by
        have := List.find?_some hpfind; simpa using this
      have hpmem : p ∈ s.products := List.mem_of_find?_eq_some hpfind
      have hsmem : s ∈ st.sales := List.mem_of_find?_eq_some hfind
      have hpnd : (s.products.map SaleProduct.productId).Nodup := hwf.productsNodup s hsmem
      have hps : (s.id == saleId && s.products.any (fun p => p.productId == pid)) = true :=
        bandi (by simp [hsid]) (List.any_eq_true.mpr ⟨p, hpmem, by simp [hpid]⟩)
      have hany :
          st.sales.any (fun s => s.id == saleId && s.products.any (fun p => p.productId == pid)) = true :=
        List.any_eq_true.mpr ⟨s, hsmem, hps⟩
      have hsales := find?_updateFirst_eq FlashSale.id
        (fun s => s.id == saleId && s.products.any (fun p => p.productId == pid))
        (fun s => { s with products := updateFirst s.products (fun p => p.productId == pid) (fun p => { p with stockRemaining := p.stockRemaining + 1 }) })
        saleId (incDocPred_key saleId pid) (fun a => rfl) st.sales hwf.salesNodup
      have hprods := find?_updateFirst_eq SaleProduct.productId (fun p => p.productId == pid)
        (fun p => { p with stockRemaining := p.stockRemaining + 1 })
        pid (fun a ha => by simpa using ha) (fun a => rfl) s.products hpnd
      unfold incStock
      simp only [hany, if_pos]
      simp only [stockOf, findSale]
      rw [hsales, hfind]
      have hex : ∃ x ∈ s.products, x.productId = pid := ⟨p, hpmem, hpid⟩
      simp [hsid, hex, hprods, hpfind, hv, hpid]

/-- Generic form of both line-item `$inc` updates: any other line item's
counter — in another sale or under another `productId` — is untouched. -/
theorem stockOf_lineUpdate_ne (sales : List FlashSale) (saleId pid : Nat)
    (pred : SaleProduct → Bool) (g : SaleProduct → SaleProduct)
    (hpredk : ∀ p, pred p = true → p.productId = pid)
    (hg : ∀ p, (g p).productId = p.productId)
    (hnd : (sales.map FlashSale.id).Nodup)
    (sid q : Nat) (hne : ¬(sid = saleId ∧ q = pid)) :
    ((updateFirst sales (fun s => s.id == saleId && s.products.any pred)
        (fun s => { s with products := updateFirst s.products pred g })).find?
        (fun s => s.id == sid)).bind
        (fun s => (s.products.find? (fun p => p.productId == q)).map SaleProduct.stockRemaining)
      = (sales.find? (fun s => s.id == sid)).bind
        (fun s => (s.products.find? (fun p => p.productId == q)).map SaleProduct.stockRemaining) := by
  by_cases hsid : sid = saleId
  · subst hsid
    have hq : q ≠ pid := fun hq => hne ⟨rfl, hq⟩
    have hsales := find?_updateFirst_eq FlashSale.id
      (fun s => s.id == sid && s.products.any pred)
      (fun s => { s with products := updateFirst s.products pred g })
      sid (fun s hs => by simpa using bandl hs) (fun a => rfl) sales hnd
    rw [hsales]
    cases hfind : sales.find? (fun a => a.id == sid) with
    | none => simp
    | some s =>
        by_cases hps : (s.id == sid && s.products.any pred) = true
        · have hinner := find?_updateFirst_ne SaleProduct.productId pred g q pid hq
            hpredk hg s.products
          have hc1 : s.id = sid := by simpa using bandl hps
          have hc2 : ∃ x ∈ s.products, pred x = true := by
            simpa using List.any_eq_true.mp (bandr hps)
          simp [hps, hinner, hc1, hc2]
        · have hcneg : ¬(s.id = sid ∧ ∃ x ∈ s.products, pred x = true) := by
            intro hc
            exact hps (bandi (by simp [hc.1]) (List.any_eq_true.mpr (by simpa using hc.2)))
          simp [hcneg]
  · have hsales := find?_updateFirst_ne FlashSale.id
      (fun s => s.id == saleId && s.products.any pred)
      (fun s => { s with products := updateFirst s.products pred g })
      sid saleId hsid (fun s hs => by simpa using bandl hs) (fun a => rfl) sales
    rw [hsales]

/-- The `$inc: +1` leaves every other line item's counter unchanged. -/
theorem incStock_stockOf_ne (st : Store) (saleId pid sid q : Nat)
    (hwf : WfStore st) (hne : ¬(sid = saleId ∧ q = pid)) :
    stockOf (incStock st saleId pid) sid q = stockOf st sid q := by
  unfold incStock
  by_cases hany :
      st.sales.any (fun s => s.id == saleId && s.products.any (fun p => p.productId == pid)) = true
  · simp only [hany, if_pos]
    simp only [stockOf, findSale]
    exact stockOf_lineUpdate_ne st.sales saleId pid (fun p => p.productId == pid)
      (fun p => { p with stockRemaining := p.stockRemaining + 1 })
      (fun p hp => by simpa using hp) (fun p => rfl) hwf.salesNodup sid q hne
  · simp [hany]

/-! ### Well-formedness preservation -/

theorem wf_lineUpdate (st : Store) (saleId : Nat)
    (pred : SaleProduct → Bool) (g : SaleProduct → SaleProduct)
    (hg : ∀ p, (g p).productId = p.productId)
    (hwf : WfStore st) :
    WfStore { st with
      sales := updateFirst st.sales (fun s => s.id == saleId && s.products.any pred)
        (fun s => { s with products := updateFirst s.products pred g }) } := by
  refine ⟨?_, ?_, hwf.purchasesNodup, hwf.nextIdFresh⟩
  · have := updateFirst_map_key FlashSale.id
      (fun s => s.id == saleId && s.products.any pred)
      (fun s => { s with products := updateFirst s.products pred g })
      (fun a => rfl) st.sales
    simpa [this] using hwf.salesNodup
  · intro s hs
    rcases mem_updateFirst _ _ _ s hs with hmem | ⟨a, hamem, rfl⟩
    · exact hwf.productsNodup s hmem
    · have := updateFirst_map_key SaleProduct.productId pred g hg a.products
      simpa [this] using hwf.productsNodup a hamem

theorem incStock_wf (st : Store) (saleId pid : Nat)
    (hwf : WfStore st) : WfStore (incStock st saleId pid) := by
  unfold incStock
  by_cases hany :
      st.sales.any (fun s => s.id == saleId && s.products.any (fun p => p.productId == pid)) = true
  · simp only [hany, if_pos]
    exact wf_lineUpdate st saleId (fun p => p.productId == pid)
      (fun p => { p with stockRemaining := p.stockRemaining + 1 }) (fun p => rfl) hwf
  · simp only [hany]
    simpa using hwf

theorem createPurchase_cases (st : Store) (u s pid price ref expiresAt : Nat) :
    (createPurchase st u s pid price ref expiresAt = none ∧ hasPurchaseFor st u s = true) ∨
    ∃ st', createPurchase st u s pid price ref expiresAt = some st' ∧
      hasPurchaseFor st u s = false ∧ st'.sales = st.sales ∧
      st'.purchases = st.purchases ++
        [{ id := st.nextId, userId := u, flashSaleId := s, productId := pid,
           price := price, status := PStatus.pending, paymentReference := ref,
           expiresAt := expiresAt }] ∧
      st'.nextId = st.nextId + 1 := by
  by_cases hdup : hasPurchaseFor st u s = true
  · refine Or.inl ⟨?_, hdup⟩
    unfold createPurchase
    simp [hdup]
  · refine Or.inr ⟨{ st with
      purchases := st.purchases ++ [{ id := st.nextId, userId := u, flashSaleId := s, productId := pid, price := price, status := PStatus.pending, paymentReference := ref, expiresAt := expiresAt }],
      nextId := st.nextId + 1 }, ?_, by simpa using hdup, rfl, rfl, rfl⟩
    unfold createPurchase
    simp [hdup]

theorem createPurchase_wf (st st' : Store) (u s pid price ref expiresAt : Nat)
    (hwf : WfStore st) (h : createPurchase st u s pid price ref expiresAt = some st') :
    WfStore st' := by
  rcases createPurchase_cases st u s pid price ref expiresAt with ⟨hnone, _⟩ | ⟨st'', hsome, _, hsales, hrows, hnext⟩
  · rw [hnone] at h; cases h
  · rw [hsome] at h
    obtain rfl : st'' = st' := Option.some.inj h
    refine ⟨by rw [hsales]; exact hwf.salesNodup, ?_, ?_, ?_⟩
    · intro sl hsl
      rw [hsales] at hsl
      exact hwf.productsNodup sl hsl
    · rw [hrows]
      simp only [List.map_append, List.map_cons, List.map_nil]
      rw [List.nodup_append]
      refine ⟨hwf.purchasesNodup, by simp, ?_⟩
      intro x hx
      have hlt := hwf.nextIdFresh
      simp only [List.mem_map] at hx
      rcases hx with ⟨prow, hmem, rfl⟩
      have := hlt prow hmem
      simp
      omega
    · intro prow hmem
      rw [hrows] at hmem
      rw [hnext]
      rcases List.mem_append.mp hmem with hmem | hmem
      · have := hwf.nextIdFresh prow hmem; omega
      · simp only [List.mem_singleton] at hmem
        subst hmem; simp

/-- Updates that only rewrite a purchase row's `status` keep the collection's
keys, the `(userId, flashSaleId)` multiset, and well-formedness. -/
theorem wf_rowStatusUpdate (st : Store) (pred : PurchaseRec → Bool) (s : PStatus)
    (hwf : WfStore st) :
    WfStore { st with purchases := updateFirst st.purchases pred (fun p => { p with status := s }) } := by
  refine ⟨hwf.salesNodup, hwf.productsNodup, ?_, ?_⟩
  · have := updateFirst_map_key PurchaseRec.id pred (fun p => { p with status := s })
      (fun a => rfl) st.purchases
    simpa [this] using hwf.purchasesNodup
  · intro prow hmem
    rcases mem_updateFirst _ _ _ prow hmem with hmem' | ⟨a, hamem, rfl⟩
    · exact hwf.nextIdFresh prow hmem'
    · simpa using hwf.nextIdFresh a hamem

theorem savePurchaseStatus_wf (st : Store) (rowId : Nat) (s : PStatus)
    (hwf : WfStore st) : WfStore (savePurchaseStatus st rowId s) :=
  wf_rowStatusUpdate st _ s hwf

theorem settlePaymentSuccess_wf (st : Store) (ref : Nat)
    (hwf : WfStore st) : WfStore (settlePaymentSuccess st ref) :=
  wf_rowStatusUpdate st _ PStatus.completed hwf

theorem incStock_purchases (st : Store) (saleId pid : Nat) :
    (incStock st saleId pid).purchases = st.purchases := by
  unfold incStock
  by_cases hany :
      st.sales.any (fun s => s.id == saleId && s.products.any (fun p => p.productId == pid)) = true
  · simp [hany]
  · simp [hany]

theorem incStock_nextId (st : Store) (saleId pid : Nat) :
    (incStock st saleId pid).nextId = st.nextId := by
  unfold incStock
  by_cases hany :
      st.sales.any (fun s => s.id == saleId && s.products.any (fun p => p.productId == pid)) = true
  · simp [hany]
  · simp [hany]

theorem decStock_purchases (st : Store) (saleId pid wpid : Nat) (st' : Store)
    (h : decStock st saleId pid = some (wpid, st')) : st'.purchases = st.purchases := by
  unfold decStock at h
  cases hfind : st.sales.find? (decDocPred saleId pid) with
  | none => rw [hfind] at h; simp at h
  | some sale =>
      rw [hfind] at h
      simp only [Option.map_some'] at h
      by_cases ht : sale.products.any (decPred pid) = true
      · rw [if_pos ht] at h
        have h2 : decApply st saleId pid (decPred pid) = st' :=
          congrArg Prod.snd (Option.some.inj h)
        rw [← h2]
        rfl
      · rw [if_neg ht] at h
        have h2 : decApply st saleId pid posPred = st' :=
          congrArg Prod.snd (Option.some.inj h)
        rw [← h2]
        rfl

theorem createPurchase_sales (st st' : Store) (u s pid price ref ea : Nat)
    (h : createPurchase st u s pid price ref ea = some st') : st'.sales = st.sales := by
  unfold createPurchase at h
  by_cases hdup : hasPurchaseFor st u s = true
  · simp [hdup] at h
  · simp only [hdup, Bool.false_eq_true, if_false, if_neg] at h
    obtain rfl : _ = st' := Option.some.inj h
    rfl

/-- `stockOf` reads only the sales collection. -/
theorem stockOf_eq_of_sales (st st' : Store) (sid pid : Nat)
    (h : st'.sales = st.sales) : stockOf st' sid pid = stockOf st sid pid := by
  unfold stockOf findSale
  rw [h]

/-! ### The per-step stock accounting (claim C1's inductive core)

`effDelta` is the contribution of one committed store mutation to one line
item's counter; every step moves the counter by exactly its effect label, the
guarded decrement only fires on a positive counter, and nothing else touches
it. -/

def effDelta (e : Eff) (sid pid : Nat) : Int :=
  match e with
  | Eff.dec s p => if s = sid ∧ p = pid then -1 else 0
  | Eff.inc s p => if s = sid ∧ p = pid then 1 else 0
  | _ => 0

theorem stepThread_stock (st : Store) (t : Thread) (sid pid : Nat) (v : Int)
    (hwf : WfStore st) (hv : stockOf st sid pid = some v) (h0 : 0 ≤ v) :
    WfStore (stepThread st t).1 ∧
    stockOf (stepThread st t).1 sid pid = some (v + effDelta (stepThread st t).2.2 sid pid) ∧
    0 ≤ v + effDelta (stepThread st t).2.2 sid pid := by
  have hpure : WfStore st ∧ stockOf st sid pid = some (v + effDelta Eff.other sid pid) ∧
      0 ≤ v + effDelta Eff.other sid pid := ⟨hwf, by simpa [effDelta] using hv, by simpa [effDelta] using h0⟩
  have hincCase : ∀ saleId' pid',
      WfStore (incStock st saleId' pid') ∧
      stockOf (incStock st saleId' pid') sid pid = some (v + effDelta (Eff.inc saleId' pid') sid pid) ∧
      0 ≤ v + effDelta (Eff.inc saleId' pid') sid pid := by
    intro saleId' pid'
    refine ⟨incStock_wf st saleId' pid' hwf, ?_, ?_⟩
    · by_cases hsame : saleId' = sid ∧ pid' = pid
      · obtain ⟨rfl, rfl⟩ := hsame
        rw [incStock_stockOf_self st saleId' pid' v hwf hv]
        simp [effDelta]
      · rw [incStock_stockOf_ne st saleId' pid' sid pid hwf
          (fun hc => hsame ⟨hc.1.symm, hc.2.symm⟩)]
        rw [hv]
        simp [effDelta]
        intro h1 h2
        exact absurd ⟨h1, h2⟩ hsame
      -- (unreachable fallthrough removed by the two cases above)
    · unfold effDelta
      by_cases hsame : saleId' = sid ∧ pid' = pid
      · simp [hsame]; omega
      · simp [hsame]; omega
  cases t with
  | purchase req ph =>
    cases ph with
    | start =>
        unfold stepThread
        cases hfs : findActiveSale st req.saleId req.now with
        | none => simpa [hfs] using hpure
        | some sale =>
          cases hfp : sale.products.find? (fun p => p.productId == req.productId) with
          | none => simpa [hfs, hfp] using hpure
          | some sp =>
            by_cases hsp : sp.stockRemaining ≤ 0
            · simpa [hfs, hfp, hsp] using hpure
            · by_cases hdup : hasPurchaseFor st req.userId req.saleId = true
              · simpa [hfs, hfp, hsp, hdup] using hpure
              · simpa [hfs, hfp, hsp, hdup] using hpure
    | preDec price =>
        unfold stepThread
        cases hdec : decStock st req.saleId req.productId with
        | none => simpa [hdec] using hpure
        | some pr =>
          obtain ⟨wpid, st'⟩ := pr
          simp only [hdec]
          obtain ⟨v0, hv0, hpos0, hdec0, hne0, hwf', _, _⟩ :=
            decStock_some st req.saleId req.productId wpid st' hwf hdec
          refine ⟨hwf', ?_, ?_⟩
          · by_cases hsame : req.saleId = sid ∧ wpid = pid
            · obtain ⟨h1, h2⟩ := hsame
              rw [h1, h2] at hv0 hdec0
              rw [hv] at hv0
              obtain rfl : v0 = v := by simpa using hv0.symm
              rw [hdec0]
              have heff : effDelta (Eff.dec req.saleId wpid) sid pid = -1 := by
                simp [effDelta, h1, h2]
              rw [heff, Int.sub_eq_add_neg]
            · rw [hne0 sid pid (fun hc => hsame ⟨hc.1.symm, hc.2.symm⟩)]
              rw [hv]
              simp [effDelta]
              intro hh1 hh2
              exact absurd ⟨hh1, hh2⟩ hsame
          · by_cases hsame : req.saleId = sid ∧ wpid = pid
            · obtain ⟨h1, h2⟩ := hsame
              rw [h1, h2] at hv0
              rw [hv] at hv0
              obtain rfl : v0 = v := by simpa using hv0.symm
              unfold effDelta
              simp [h1, h2]
              omega
            · unfold effDelta
              simp [hsame]
              omega
    | preInit price =>
        unfold stepThread
        by_cases hpay : req.paymentOk = true
        · simpa [hpay] using hpure
        · simpa [hpay] using hpure
    | preFail =>
        unfold stepThread
        exact hincCase req.saleId req.productId
    | preCreate price =>
        unfold stepThread
        cases hcr : createPurchase st req.userId req.saleId req.productId price
            req.paymentRef (req.now + holdMs) with
        | none => simpa [hcr] using hpure
        | some st' =>
          simp only [hcr]
          refine ⟨createPurchase_wf st st' req.userId req.saleId req.productId price
            req.paymentRef (req.now + holdMs) hwf hcr, ?_, ?_⟩
          · rw [stockOf_eq_of_sales st st' sid pid
              (createPurchase_sales st st' req.userId req.saleId req.productId price
                req.paymentRef (req.now + holdMs) hcr), hv]
            simp [effDelta]
          · simpa [effDelta] using h0
    | ok => exact hpure
    | err e => exact hpure
  | reaper now ph =>
    cases ph with
    | start => simpa using hpure
    | sweepSave snap =>
        cases snap with
        | nil => simpa using hpure
        | cons p rest =>
          unfold stepThread
          refine ⟨savePurchaseStatus_wf st p.id PStatus.expired hwf, ?_, ?_⟩
          · rw [stockOf_eq_of_sales st (savePurchaseStatus st p.id PStatus.expired) sid pid rfl, hv]
            simp [effDelta]
          · simpa [effDelta] using h0
    | sweepInc p rest =>
        unfold stepThread
        exact hincCase p.flashSaleId p.productId
    | done => exact hpure
  | settle ref delivered =>
    cases delivered with
    | true => exact hpure
    | false =>
        have hstep : stepThread st (Thread.settle ref false) =
            (settlePaymentSuccess st ref, Thread.settle ref true, Eff.other) := rfl
        rw [hstep]
        refine ⟨settlePaymentSuccess_wf st ref hwf, ?_, ?_⟩
        · rw [stockOf_eq_of_sales st (settlePaymentSuccess st ref) sid pid rfl, hv]
          simp [effDelta]
        · simpa [effDelta] using h0

theorem effDelta_split (e : Eff) (sid pid : Nat) :
    effDelta e sid pid =
      (if (e == Eff.inc sid pid) = true then (1 : Int) else 0) -
      (if (e == Eff.dec sid pid) = true then (1 : Int) else 0) := by
  cases e with
  | dec s p =>
      by_cases h : s = sid ∧ p = pid
      · obtain ⟨rfl, rfl⟩ := h
        simp [effDelta]
      · have hne : ¬(Eff.dec s p = Eff.dec sid pid) := by
          intro hc
          cases hc
          exact h ⟨rfl, rfl⟩
        simp [effDelta, h, hne]
  | inc s p =>
      by_cases h : s = sid ∧ p = pid
      · obtain ⟨rfl, rfl⟩ := h
        simp [effDelta]
      · have hne : ¬(Eff.inc s p = Eff.inc sid pid) := by
          intro hc
          cases hc
          exact h ⟨rfl, rfl⟩
        simp [effDelta, h, hne]
  | insert u s => simp [effDelta]
  | other => simp [effDelta]

theorem countDec_cons (e : Eff) (effs : List Eff) (sid pid : Nat) :
    countDec (e :: effs) sid pid =
      countDec effs sid pid + (if (e == Eff.dec sid pid) = true then 1 else 0) := by
  simp [countDec, List.countP_cons]

theorem countInc_cons (e : Eff) (effs : List Eff) (sid pid : Nat) :
    countInc (e :: effs) sid pid =
      countInc effs sid pid + (if (e == Eff.inc sid pid) = true then 1 else 0) := by
  simp [countInc, List.countP_cons]

theorem stepSysE_stock (sys : Sys) (i : Nat) (sid pid : Nat) (v : Int)
    (hwf : WfStore sys.store) (hv : stockOf sys.store sid pid = some v) (h0 : 0 ≤ v) :
    WfStore (stepSysE sys i).1.store ∧
    stockOf (stepSysE sys i).1.store sid pid = some (v + effDelta (stepSysE sys i).2 sid pid) ∧
    0 ≤ v + effDelta (stepSysE sys i).2 sid pid := by
  unfold stepSysE
  cases hget : sys.threads.get? i with
  | none => exact ⟨hwf, by simpa [effDelta] using hv, by simpa [effDelta] using h0⟩
  | some t => exact stepThread_stock sys.store t sid pid v hwf hv h0

/-- The counter trace identity: after any schedule the stored counter equals
the initial value minus the committed decrements plus the committed
increments, and it never went negative. -/
theorem runE_stock (sid pid : Nat) :
    ∀ (sched : List Nat) (sys : Sys) (v : Int),
      WfStore sys.store → stockOf sys.store sid pid = some v → 0 ≤ v →
      WfStore (runE sys sched).1.store ∧
      ∃ v', stockOf (runE sys sched).1.store sid pid = some v' ∧ 0 ≤ v' ∧
        v' = v - (countDec (runE sys sched).2 sid pid : Int) +
          (countInc (runE sys sched).2 sid pid : Int) := by
  intro sched
  induction sched with
  | nil =>
      intro sys v hwf hv h0
      exact ⟨hwf, v, by simpa [runE] using hv, h0, by simp [runE, countDec, countInc]⟩
  | cons i rest ih =>
      intro sys v hwf hv h0
      obtain ⟨hwf1, hv1, h01⟩ := stepSysE_stock sys i sid pid v hwf hv h0
      obtain ⟨hwf2, v', hv', h0', hsum⟩ := ih (stepSysE sys i).1 _ hwf1 hv1 h01
      have hrw : runE sys (i :: rest) =
          ((runE (stepSysE sys i).1 rest).1,
            (stepSysE sys i).2 :: (runE (stepSysE sys i).1 rest).2) := rfl
      rw [hrw]
      refine ⟨hwf2, v', hv', h0', ?_⟩
      rw [hsum, countDec_cons, countInc_cons, effDelta_split]
      by_cases hd : ((stepSysE sys i).2 == Eff.dec sid pid) = true <;>
        by_cases hi : ((stepSysE sys i).2 == Eff.inc sid pid) = true <;>
          simp [hd, hi] <;> omega

/-! ### Concrete fixtures used by witnesses and counterexamples -/

/-- A one-item sale window fixture: sale `_id = 1`, line item `productId = 7`,
`stockLimit = 2`, freshly created (`stockRemaining = stockLimit`, handler
line 130), active over `[0, 10000]`. -/
def saleFix : FlashSale :=
  { id := 1,
    products := [{ productId := 7, salePrice := 500, stockLimit := 2, stockRemaining := 2 }],
    startTime := 0, endTime := 10000, isActive := true, status := SaleStatus.active }

def storeFix : Store := { sales := [saleFix], purchases := [], nextId := 1 }

/-- Two concurrent requests by the same user (`userId = 5`) for the same
sale/product, both with a succeeding payment collaborator. -/
def reqA : PReq :=
  { userId := 5, saleId := 1, productId := 7, paymentRef := 100, now := 50, paymentOk := true }

def reqB : PReq :=
  { userId := 5, saleId := 1, productId := 7, paymentRef := 101, now := 60, paymentOk := true }

def raceSys : Sys :=
  { store := storeFix,
    threads := [Thread.purchase reqA PPhase.start, Thread.purchase reqB PPhase.start] }

/-- The lock-step schedule: both requests pass all pre-checks before either
writes, then proceed alternately to the decrement, payment and insert. -/
def raceSched : List Nat := [0, 1, 0, 1, 0, 1, 0, 1]

/-! ### Claim C1 -/

/-- A two-line-item window for C1: the purchased item `productId = 7` has a
single unit (`stockLimit = stockRemaining = 1`); its sibling `productId = 8`
is well stocked.  Exhibits the cross-element behaviour of the decrement
filter's dot-notation conditions. -/
def mixedSaleFix : FlashSale :=
  { id := 1,
    products := [{ productId := 7, salePrice := 500, stockLimit := 1, stockRemaining := 1 },
                 { productId := 8, salePrice := 700, stockLimit := 5, stockRemaining := 5 }],
    startTime := 0, endTime := 10000, isActive := true, status := SaleStatus.active }

def mixedStoreFix : Store := { sales := [mixedSaleFix], purchases := [], nextId := 1 }

/-- Two *different* users racing for the last unit of item 7 (distinct users,
so the unique `(userId, flashSaleId)` index stops neither insert). -/
def mreqA : PReq :=
  { userId := 5, saleId := 1, productId := 7, paymentRef := 300, now := 50, paymentOk := true }

def mreqB : PReq :=
  { userId := 6, saleId := 1, productId := 7, paymentRef := 301, now := 60, paymentOk := true }

def mixedRaceSys : Sys :=
  { store := mixedStoreFix,
    threads := [Thread.purchase mreqA PPhase.start, Thread.purchase mreqB PPhase.start] }

/-- The lock-step schedule of the mixed-window race: both requests pass the
pre-checks, then decrement, pay and insert alternately. -/
def mixedSched : List Nat := [0, 1, 0, 1, 0, 1, 0, 1]

/-- C1 (amended): the stock decrement of `purchaseProduct` is the single
conditional update `findOneAndUpdate({_id, 'products.productId': pid,
'products.stockRemaining': {$gt: 0}}, {$inc: {'products.$.stockRemaining': -1}})`,
but its two dot-notation array conditions carry no `$elemMatch`, so they are
independent existentials over the line-item array: on a multi-item window the
update can match — and commit a write — while the *purchased* item's counter
is already 0, the write landing on a sibling item (see `c1_counterexample`,
which refutes the frozen "succeeds only when stockRemaining > 0").  What does
hold: (a) a call whose filter matches no document leaves the store untouched
and fails with `RESOURCE_EXHAUSTED` (OutOfStock), (b) and then the purchased
item, if stored, is at `≤ 0`; (c) every committed decrement moves the counter
of *some* line item of the window from a positive value down by exactly one
and writes nothing else; (d) whenever the purchased item's own counter is
positive — always the case on single-line-item windows — the update targets
exactly that item; (e) hence per line item, over every interleaving starting
from a fresh counter `n`, the stored counter never drops below zero and the
committed decrements of that item's counter never exceed `n` plus the
committed compensating increments (`n` when there are none). -/
theorem c1_cross_element_decrement_accounting
    (sys : Sys) (sid pid : Nat) (n : Int)
    (hwf : WfStore sys.store)
    (_hlim : stockLimitOf sys.store sid pid = some n)
    (hstock : stockOf sys.store sid pid = some n)
    (hn : 0 ≤ n) :
    (∀ (st : Store) (r : PReq) (price : Nat), decStock st r.saleId r.productId = none →
        stepThread st (Thread.purchase r (PPhase.preDec price)) =
          (st, Thread.purchase r (PPhase.err PError.outOfStock), Eff.other)) ∧
    (∀ (st : Store) (v : Int), decStock st sid pid = none →
        stockOf st sid pid = some v → v ≤ 0) ∧
    (∀ (st st' : Store) (wpid : Nat), WfStore st → decStock st sid pid = some (wpid, st') →
        ∃ v, stockOf st sid wpid = some v ∧ 0 < v ∧ stockOf st' sid wpid = some (v - 1) ∧
          st'.purchases = st.purchases) ∧
    (∀ (st : Store) (v : Int), WfStore st → stockOf st sid pid = some v → 0 < v →
        ∃ st', decStock st sid pid = some (pid, st') ∧ stockOf st' sid pid = some (v - 1)) ∧
    (∀ sched : List Nat,
        (∃ v, stockOf (runSys sys sched).store sid pid = some v ∧ 0 ≤ v) ∧
        (countDec (runE sys sched).2 sid pid : Int) ≤
          n + (countInc (runE sys sched).2 sid pid : Int) ∧
        (countInc (runE sys sched).2 sid pid = 0 →
          (countDec (runE sys sched).2 sid pid : Int) ≤ n)) := by
  refine ⟨?_, ?_, ?_, ?_, ?_⟩
  · intro st r price hdec
    show (match decStock st r.saleId r.productId with
      | none => (st, Thread.purchase r (PPhase.err PError.outOfStock), Eff.other)
      | some (wpid, st1) => (st1, Thread.purchase r (PPhase.preInit price), Eff.dec r.saleId wpid)) =
      (st, Thread.purchase r (PPhase.err PError.outOfStock), Eff.other)
    rw [hdec]
  · intro st v hdec hv
    exact decStock_none st sid pid hdec v hv
  · intro st st' wpid hwf' hdec
    obtain ⟨v, hv, hpos, hdec', _, _, hpur, _⟩ := decStock_some st sid pid wpid st' hwf' hdec
    exact ⟨v, hv, hpos, hdec', hpur⟩
  · intro st v hwf' hv hpos
    obtain ⟨st', hdec⟩ := decStock_pos st sid pid v hwf' hv hpos
    obtain ⟨v0, hv0, _, hdec', _, _, _, _⟩ := decStock_some st sid pid pid st' hwf' hdec
    rw [hv] at hv0
    obtain rfl : v0 = v := by simpa using hv0.symm
    exact ⟨st', hdec, hdec'⟩
  · intro sched
    obtain ⟨_, v', hv', h0', hsum⟩ := runE_stock sid pid sched sys n hwf hstock hn
    refine ⟨⟨v', by simpa [runSys] using hv', h0'⟩, by omega, fun hI => by omega⟩

/-- Witness for C1's amended theorem: the mixed two-item window satisfies
every hypothesis for line item 7, and after the race schedule the stored
counter of item 7 is still non-negative. -/
theorem c1_witness :
    WfStore mixedRaceSys.store ∧ stockLimitOf mixedRaceSys.store 1 7 = some 1 ∧
    stockOf mixedRaceSys.store 1 7 = some 1 ∧ (0 : Int) ≤ 1 ∧
    (∃ v, stockOf (runSys mixedRaceSys mixedSched).store 1 7 = some v ∧ 0 ≤ v) :=
  ⟨by decide, by decide, by decide, by decide,
    ((c1_cross_element_decrement_accounting mixedRaceSys 1 7 1 (by decide) (by decide)
      (by decide) (by decide)).2.2.2.2 mixedSched).1⟩

/-- Counterexample to C1 as frozen.  Users 5 and 6 race for the last unit of
item 7 in the two-item window: after `[0, 1, 0]` (both pre-checks, then the
first decrement) item 7 is sold out — yet the second request's conditional
update still matches, because the filter's `productId` condition is met by
element 7 while its `stockRemaining > 0` condition is met by element 8.  The
decrement therefore does **not** "succeed only when stockRemaining > 0" for
the purchased item, and the call does not fail with OutOfStock: it commits a
write (to sibling item 8), both purchases of the `stockLimit = 1` item 7
complete, and the run ends with two ledger rows for item 7, item 7's counter
at 0 after a single committed decrement, and item 8's counter drained from 5
to 4 with no purchase of item 8 at all. -/
theorem c1_counterexample :
    stockLimitOf mixedStoreFix 1 7 = some 1 ∧
    stockOf (runSys mixedRaceSys [0, 1, 0]).store 1 7 = some 0 ∧
    decStock (runSys mixedRaceSys [0, 1, 0]).store 1 7 ≠ none ∧
    (runSys mixedRaceSys mixedSched).threads =
      [Thread.purchase mreqA PPhase.ok, Thread.purchase mreqB PPhase.ok] ∧
    (runSys mixedRaceSys mixedSched).store.purchases.countP
      (fun p => p.productId == 7) = 2 ∧
    countDec (runE mixedRaceSys mixedSched).2 1 7 = 1 ∧
    countDec (runE mixedRaceSys mixedSched).2 1 8 = 1 ∧
    stockOf (runSys mixedRaceSys mixedSched).store 1 7 = some 0 ∧
    stockOf (runSys mixedRaceSys mixedSched).store 1 8 = some 4 := by decide

/-! ### Claim C2 machinery: uniqueness of the `(userId, flashSaleId)` row -/

/-- A thread that has completed its reservation successfully for `(u, s)`. -/
def isOkFor (t : Thread) (u s : Nat) : Bool :=
  match t with
  | Thread.purchase r PPhase.ok => r.userId == u && r.saleId == s
  | _ => false

/-- Threads of the system that finished `purchaseProduct` successfully for
`(u, s)`. -/
def okFor (threads : List Thread) (u s : Nat) : Nat :=
  threads.countP (fun t => isOkFor t u s)

theorem countP_set {α : Type} (q : α → Bool) :
    ∀ (l : List α) (i : Nat) (a b : α), l.get? i = some b →
      (l.set i a).countP q + (if q b then 1 else 0) =
        l.countP q + (if q a then 1 else 0) := by
  intro l
  induction l with
  | nil => intro i a b h; simp at h
  | cons x xs ih =>
      intro i a b h
      cases i with
      | zero =>
          simp only [List.get?] at h
          obtain rfl : x = b := Option.some.inj h
          simp [List.countP_cons]
          omega
      | succ j =>
          simp only [List.get?] at h
          have := ih j a b h
          simp [List.countP_cons]
          omega

theorem rowsFor_congr (st st' : Store) (u s : Nat)
    (h : st'.purchases = st.purchases) : rowsFor st' u s = rowsFor st u s := by
  unfold rowsFor
  rw [h]

/-- Status-only row rewrites do not change how many rows a user holds. -/
theorem rowsFor_rowStatusUpdate (st : Store) (pred : PurchaseRec → Bool)
    (stat : PStatus) (u s : Nat) :
    rowsFor { st with purchases := updateFirst st.purchases pred (fun p => { p with status := stat }) } u s
      = rowsFor st u s := by
  unfold rowsFor
  show List.countP (fun p => p.userId == u && p.flashSaleId == s)
      (updateFirst st.purchases pred (fun p => { p with status := stat })) =
    List.countP (fun p => p.userId == u && p.flashSaleId == s) st.purchases
  exact countP_updateFirst (fun p => p.userId == u && p.flashSaleId == s) pred
    (fun p => { p with status := stat }) (fun a => rfl) st.purchases

/-- The duplicate pre-check / unique-index predicate is exactly
`rowsFor = 0` when false. -/
theorem hasPurchaseFor_false_iff (st : Store) (u s : Nat) :
    hasPurchaseFor st u s = false ↔ rowsFor st u s = 0 := by
  unfold hasPurchaseFor rowsFor
  rw [List.countP_eq_zero]
  constructor
  · intro h p hp hq
    have hane : st.purchases.any (fun p => p.userId == u && p.flashSaleId == s) = true :=
      List.any_eq_true.mpr ⟨p, hp, hq⟩
    rw [hane] at h
    cases h
  · intro h
    cases hq : st.purchases.any (fun p => p.userId == u && p.flashSaleId == s) with
    | false => rfl
    | true =>
        rcases List.any_eq_true.mp hq with ⟨p, hp, hpq⟩
        exact absurd hpq (h p hp)

/-- One step of any thread either leaves the `(u, s)` row count unchanged
without creating a new successful `(u, s)` thread, or is the unique-index
insert: it requires no existing row, creates exactly one, and the stepping
thread was not yet successful. -/
theorem stepThread_c2 (st : Store) (t : Thread) (u s : Nat) :
    (rowsFor (stepThread st t).1 u s = rowsFor st u s ∧
      (if isOkFor (stepThread st t).2.1 u s then 1 else 0) ≤ (if isOkFor t u s then 1 else 0)) ∨
    (rowsFor st u s = 0 ∧ rowsFor (stepThread st t).1 u s = 1 ∧
      isOkFor t u s = false ∧
      (if isOkFor (stepThread st t).2.1 u s then 1 else 0) ≤ 1) := by
  cases t with
  | purchase req ph =>
    cases ph with
    | start =>
        cases hfs : findActiveSale st req.saleId req.now with
        | none =>
            exact Or.inl ⟨by simp [stepThread, hfs], by simp [stepThread, hfs, isOkFor]⟩
        | some sale =>
          cases hfp : sale.products.find? (fun p => p.productId == req.productId) with
          | none =>
              exact Or.inl ⟨by simp [stepThread, hfs, hfp], by simp [stepThread, hfs, hfp, isOkFor]⟩
          | some sp =>
            by_cases hsp : sp.stockRemaining ≤ 0
            · exact Or.inl ⟨by simp [stepThread, hfs, hfp, hsp],
                by simp [stepThread, hfs, hfp, hsp, isOkFor]⟩
            · by_cases hdup : hasPurchaseFor st req.userId req.saleId = true
              · exact Or.inl ⟨by simp [stepThread, hfs, hfp, hsp, hdup],
                  by simp [stepThread, hfs, hfp, hsp, hdup, isOkFor]⟩
              · exact Or.inl ⟨by simp [stepThread, hfs, hfp, hsp, hdup],
                  by simp [stepThread, hfs, hfp, hsp, hdup, isOkFor]⟩
    | preDec price =>
        cases hdec : decStock st req.saleId req.productId with
        | none =>
            exact Or.inl ⟨by simp [stepThread, hdec], by simp [stepThread, hdec, isOkFor]⟩
        | some pr =>
          obtain ⟨wpid, st'⟩ := pr
          refine Or.inl ⟨?_, ?_⟩
          · have h1 : (stepThread st (Thread.purchase req (PPhase.preDec price))).1 = st' := by
              simp [stepThread, hdec]
            rw [h1]
            exact rowsFor_congr st st' u s
              (decStock_purchases st req.saleId req.productId wpid st' hdec)
          · have h2 : (stepThread st (Thread.purchase req (PPhase.preDec price))).2.1 =
                Thread.purchase req (PPhase.preInit price) := by
              simp [stepThread, hdec]
            rw [h2]
            simp [isOkFor]
    | preInit price =>
        by_cases hpay : req.paymentOk = true
        · exact Or.inl ⟨by simp [stepThread, hpay], by simp [stepThread, hpay, isOkFor]⟩
        · exact Or.inl ⟨by simp [stepThread, hpay], by simp [stepThread, hpay, isOkFor]⟩
    | preFail =>
        refine Or.inl ⟨?_, ?_⟩
        · have h1 : (stepThread st (Thread.purchase req PPhase.preFail)).1 =
              incStock st req.saleId req.productId := rfl
          rw [h1]
          exact rowsFor_congr st _ u s (incStock_purchases st req.saleId req.productId)
        · simp [stepThread, isOkFor]
    | preCreate price =>
        cases hcr : createPurchase st req.userId req.saleId req.productId price
            req.paymentRef (req.now + holdMs) with
        | none =>
            exact Or.inl ⟨by simp [stepThread, hcr], by simp [stepThread, hcr, isOkFor]⟩
        | some st' =>
          have h1 : (stepThread st (Thread.purchase req (PPhase.preCreate price))).1 = st' := by
            simp [stepThread, hcr]
          have h2 : (stepThread st (Thread.purchase req (PPhase.preCreate price))).2.1 =
              Thread.purchase req PPhase.ok := by
            simp [stepThread, hcr]
          rcases createPurchase_cases st req.userId req.saleId req.productId price
              req.paymentRef (req.now + holdMs) with ⟨hnone, _⟩ | ⟨st'', hsome, hguard, _, hrows, _⟩
          · rw [hnone] at hcr; cases hcr
          · rw [hsome] at hcr
            obtain rfl : st'' = st' := Option.some.inj hcr
            by_cases hpair : req.userId = u ∧ req.saleId = s
            · obtain ⟨rfl, rfl⟩ := hpair
              have hzero : rowsFor st req.userId req.saleId = 0 :=
                (hasPurchaseFor_false_iff st req.userId req.saleId).mp hguard
              refine Or.inr ⟨hzero, ?_, by simp [isOkFor], ?_⟩
              · rw [h1]
                unfold rowsFor
                rw [hrows, List.countP_append]
                unfold rowsFor at hzero
                rw [hzero]
                simp
              · split <;> omega
            · refine Or.inl ⟨?_, ?_⟩
              · rw [h1]
                unfold rowsFor
                rw [hrows, List.countP_append]
                simp [List.countP_cons, hpair]
              · rw [h2]
                simp [isOkFor, hpair]
    | ok => exact Or.inl ⟨rfl, le_refl _⟩
    | err e => exact Or.inl ⟨rfl, le_refl _⟩
  | reaper now ph =>
    cases ph with
    | start => exact Or.inl ⟨by simp [stepThread], by simp [stepThread, isOkFor]⟩
    | sweepSave snap =>
        cases snap with
        | nil => exact Or.inl ⟨by simp [stepThread], by simp [stepThread, isOkFor]⟩
        | cons p rest =>
          refine Or.inl ⟨?_, ?_⟩
          · have h1 : (stepThread st (Thread.reaper now (RPhase.sweepSave (p :: rest)))).1 =
                savePurchaseStatus st p.id PStatus.expired := rfl
            rw [h1]
            exact rowsFor_rowStatusUpdate st _ PStatus.expired u s
          · simp [stepThread, isOkFor]
    | sweepInc p rest =>
        refine Or.inl ⟨?_, ?_⟩
        · have h1 : (stepThread st (Thread.reaper now (RPhase.sweepInc p rest))).1 =
              incStock st p.flashSaleId p.productId := rfl
          rw [h1]
          exact rowsFor_congr st _ u s (incStock_purchases st p.flashSaleId p.productId)
        · simp [stepThread, isOkFor]
    | done => exact Or.inl ⟨by simp [stepThread], by simp [stepThread, isOkFor]⟩
  | settle ref delivered =>
    cases delivered with
    | true => exact Or.inl ⟨by simp [stepThread], by simp [stepThread, isOkFor]⟩
    | false =>
        refine Or.inl ⟨?_, ?_⟩
        · have h1 : (stepThread st (Thread.settle ref false)).1 =
              settlePaymentSuccess st ref := rfl
          rw [h1]
          exact rowsFor_rowStatusUpdate st _ PStatus.completed u s
        · simp [stepThread, isOkFor]

/-- The C2 inductive invariant: at most one `(u, s)` row, and no more
successfully-finished `(u, s)` threads than rows. -/
def InvC2 (u s : Nat) (sys : Sys) : Prop :=
  rowsFor sys.store u s ≤ 1 ∧ okFor sys.threads u s ≤ rowsFor sys.store u s

theorem stepSysE_c2 (sys : Sys) (i u s : Nat)
    (h : InvC2 u s sys) : InvC2 u s (stepSysE sys i).1 := by
  unfold stepSysE
  cases hget : sys.threads.get? i with
  | none => exact h
  | some t =>
      obtain ⟨h1, h2⟩ := h
      have hcount := countP_set (fun t => isOkFor t u s) sys.threads i
        (stepThread sys.store t).2.1 t hget
      unfold okFor at h2
      unfold InvC2 okFor
      rcases stepThread_c2 sys.store t u s with ⟨hrows, hok⟩ | ⟨hz, hone, hnotok, hok1⟩
      · constructor
        · simpa [hrows] using h1
        · rw [hrows]
          cases hio : isOkFor t u s <;>
            cases hio' : isOkFor (stepThread sys.store t).2.1 u s <;>
              simp [hio, hio'] at hcount hok ⊢ <;> omega
      · constructor
        · simp [hone]
        · rw [hone]
          rw [hz] at h2
          cases hio : isOkFor t u s <;>
            cases hio' : isOkFor (stepThread sys.store t).2.1 u s <;>
              simp [hio, hio'] at hcount hnotok ⊢ <;> omega

theorem runSys_c2 (u s : Nat) :
    ∀ (sched : List Nat) (sys : Sys), InvC2 u s sys → InvC2 u s (runSys sys sched) := by
  intro sched
  induction sched with
  | nil => intro sys h; exact h
  | cons i rest ih =>
      intro sys h
      have hstep := stepSysE_c2 sys i u s h
      have : runSys sys (i :: rest) = runSys (stepSysE sys i).1 rest := rfl
      rw [this]
      exact ih (stepSysE sys i).1 hstep

/-! ### Claim C2 -/

/-- C2 (amended): the unique `(userId, flashSaleId)` index is enforced at the
store — `Purchase.create` refuses a second row for the pair regardless of the
application-level pre-check — so over every interleaving at most one Purchase
row per `(u, s)` ever exists and at most one concurrent request finishes
successfully.  However, a racer that passed the pre-check and loses at the
insert fails with the generic duplicate-key error (Mongo E11000, mapped by
the error controller to 409 "... already exists ..."), not with the
`AlreadyParticipated` (`SINGLE_UNIT_POLICY`) error, which only the optimistic
pre-check produces. -/
theorem c2_store_level_uniqueness
    (sys : Sys) (u s : Nat)
    (hrow : rowsFor sys.store u s ≤ 1)
    (hok : okFor sys.threads u s ≤ rowsFor sys.store u s) :
    (∀ (st : Store) (u' s' pid price ref ea : Nat), hasPurchaseFor st u' s' = true →
        createPurchase st u' s' pid price ref ea = none) ∧
    (∀ (st : Store) (r : PReq) (price : Nat),
        hasPurchaseFor st r.userId r.saleId = true →
        stepThread st (Thread.purchase r (PPhase.preCreate price)) =
          (st, Thread.purchase r (PPhase.err PError.duplicateKey), Eff.other)) ∧
    (∀ sched : List Nat,
        rowsFor (runSys sys sched).store u s ≤ 1 ∧
        okFor (runSys sys sched).threads u s ≤ 1) := by
  refine ⟨?_, ?_, ?_⟩
  · intro st u' s' pid price ref ea hdup
    unfold createPurchase
    simp [hdup]
  · intro st r price hdup
    have hcr : createPurchase st r.userId r.saleId r.productId price
        r.paymentRef (r.now + holdMs) = none := by
      unfold createPurchase
      simp [hdup]
    show (match createPurchase st r.userId r.saleId r.productId price
        r.paymentRef (r.now + holdMs) with
      | none => (st, Thread.purchase r (PPhase.err PError.duplicateKey), Eff.other)
      | some st1 => (st1, Thread.purchase r PPhase.ok, Eff.insert r.userId r.saleId)) =
      (st, Thread.purchase r (PPhase.err PError.duplicateKey), Eff.other)
    rw [hcr]
  · intro sched
    obtain ⟨h1, h2⟩ := runSys_c2 u s sched sys ⟨hrow, hok⟩
    exact ⟨h1, le_trans h2 h1⟩

/-- Witness for C2's amended theorem at the race fixture. -/
theorem c2_witness :
    rowsFor raceSys.store 5 1 ≤ 1 ∧ okFor raceSys.threads 5 1 ≤ rowsFor raceSys.store 5 1 ∧
    (rowsFor (runSys raceSys raceSched).store 5 1 ≤ 1 ∧
      okFor (runSys raceSys raceSched).threads 5 1 ≤ 1) :=
  ⟨by decide, by decide,
    (c2_store_level_uniqueness raceSys 5 1 (by decide) (by decide)).2.2 raceSched⟩

/-- Counterexample to C2 as frozen: in the two-request race for the same
`(userId = 5, flashSaleId = 1)` both requests pass the pre-check, exactly one
insert succeeds — but the loser fails with the uncaught duplicate-key error,
not with `AlreadyParticipated` as the claim states. -/
theorem c2_counterexample :
    (runSys raceSys raceSched).threads.get? 0 = some (Thread.purchase reqA PPhase.ok) ∧
    (runSys raceSys raceSched).threads.get? 1 =
      some (Thread.purchase reqB (PPhase.err PError.duplicateKey)) ∧
    PError.duplicateKey ≠ PError.alreadyParticipated ∧
    rowsFor (runSys raceSys raceSched).store 5 1 = 1 := by decide

/-! ### Claim C3 -/

/-- C3: the code has no rollback on a uniqueness violation after the step-4
decrement.  In the same-user race both requests decrement (stockLimit 2 → 0),
the loser's `Purchase.create` raises E11000 — uncaught by `purchaseProduct`
(lines 405–414 have no try/catch and no `$inc: +1`) — and the call ends with
the duplicate-key error while its decrement survives: final
`stockRemaining = 0` with a single purchase row, and the trace contains two
committed decrements and zero compensating increments, where the claim
requires the loser's decrement to be rolled back (final stock 1). -/
theorem c3_duplicate_insert_leaks_stock :
    stockOf (runSys raceSys raceSched).store 1 7 = some 0 ∧
    rowsFor (runSys raceSys raceSched).store 5 1 = 1 ∧
    (runSys raceSys raceSched).threads.get? 1 =
      some (Thread.purchase reqB (PPhase.err PError.duplicateKey)) ∧
    countDec (runE raceSys raceSched).2 1 7 = 2 ∧
    countInc (runE raceSys raceSched).2 1 7 = 0 := by decide

/-! ### Claims C4 and C5: the reaper's find-then-save sweep -/

/-- Fixture for the reaper claims: one pending purchase (row id 1,
`paymentReference = 100`) whose `expiresAt = 50` is long past at tick time
`now = 1000`; its line item (`stockLimit = 1`) is sold out
(`stockRemaining = 0`). -/
def expiredSaleFix : FlashSale :=
  { id := 1,
    products := [{ productId := 7, salePrice := 500, stockLimit := 1, stockRemaining := 0 }],
    startTime := 0, endTime := 10000, isActive := true, status := SaleStatus.active }

def pendingRowFix : PurchaseRec :=
  { id := 1, userId := 5, flashSaleId := 1, productId := 7, price := 500,
    status := PStatus.pending, paymentReference := 100, expiresAt := 50 }

def reapStoreFix : Store :=
  { sales := [expiredSaleFix], purchases := [pendingRowFix], nextId := 2 }

/-- Two overlapping reaper ticks over the same store. -/
def twoTickSys : Sys :=
  { store := reapStoreFix,
    threads := [Thread.reaper 1000 RPhase.start, Thread.reaper 1000 RPhase.start] }

/-- Both ticks snapshot the same pending row before either writes, then each
expires it and increments the stock. -/
def twoTickSched : List Nat := [0, 1, 0, 0, 1, 1]

/-- C4: the reaper's expiry transition is `find` → `purchase.save()` —
keyed on `_id` alone, with **no** status-must-equal-pending precondition on
the update (server.ts lines 141–155).  When two ticks overlap, both snapshot
the same pending row before either saves, and both increment the line item's
`stockRemaining`: the counter ends at 2 on a `stockLimit = 1` item, a double
release, where the claim requires exactly one increment.  (With the
spec-mandated guard, the second tick's transition would have been a no-op.) -/
theorem c4_overlapping_reaper_ticks_double_increment :
    statusOfRow (runSys twoTickSys twoTickSched).store 1 = some PStatus.expired ∧
    stockOf (runSys twoTickSys twoTickSched).store 1 7 = some 2 ∧
    stockLimitOf (runSys twoTickSys twoTickSched).store 1 7 = some 1 ∧
    countInc (runE twoTickSys twoTickSched).2 1 7 = 2 := by decide

/-- One reaper tick racing one settlement notification for the pending row's
payment reference. -/
def reapSettleSys : Sys :=
  { store := reapStoreFix,
    threads := [Thread.reaper 1000 RPhase.start, Thread.settle 100 false] }

/-- C5: terminal statuses are not final against the reaper.  The reaper
snapshots the row while pending; settlement (status-guarded, per spec §4.3)
commits `pending → completed` — a terminal state; the reaper's unguarded
`save()` then overwrites it to `expired`.  After schedule
`[reaper-find, settle]` the row is `completed`; one more reaper step makes it
`expired`, so a terminal status was changed, contradicting the claim. -/
theorem c5_reaper_overwrites_completed :
    statusOfRow (runSys reapSettleSys [0, 1]).store 1 = some PStatus.completed ∧
    statusOfRow (runSys reapSettleSys [0, 1, 0]).store 1 = some PStatus.expired ∧
    PStatus.completed ≠ PStatus.expired := by decide

/-! ### Claim C6: payment-initiation failure -/

/-- The active-window `findOne` only returns the document with the requested
`_id`. -/
theorem findActiveSale_id (st : Store) (sale : FlashSale) (saleId now : Nat)
    (h : findActiveSale st saleId now = some sale) : sale.id = saleId := by
  unfold findActiveSale at h
  have hprop := List.find?_some h
  have := bandl (bandl (bandl (bandl hprop)))
  simpa using this

/-- The `findOne` with the active-window filter and the plain `_id` lookup
agree on which document they return. -/
theorem findSale_of_findActive (st : Store) (sale : FlashSale) (saleId now : Nat)
    (hwf : WfStore st) (h : findActiveSale st saleId now = some sale) :
    findSale st saleId = some sale := by
  have hid : sale.id = saleId := findActiveSale_id st sale saleId now h
  unfold findActiveSale at h
  have hmem : sale ∈ st.sales := List.mem_of_find?_eq_some h
  exact find?_eq_of_mem_nodup FlashSale.id saleId st.sales sale hwf.salesNodup hmem hid

/-- C6 (amended): `purchaseProduct` calls the payment collaborator *before*
inserting the ledger row (lines 389–414).  When payment initiation fails the
handler rolls back the step-4 decrement with `$inc: +1` and fails with
`PaymentInitFailed`; no pending Reservation was ever inserted during the
call, so there is nothing to delete and no ledger entry survives: the ledger
is unchanged at every step of the failing call and the counter is restored to
its pre-call value. -/
theorem c6_payment_failure_restores_stock_and_leaves_no_row
    (st : Store) (r : PReq) (sale : FlashSale) (sp : SaleProduct)
    (hwf : WfStore st)
    (hsale : findActiveSale st r.saleId r.now = some sale)
    (hprod : sale.products.find? (fun p => p.productId == r.productId) = some sp)
    (hsp : 0 < sp.stockRemaining)
    (hdup : hasPurchaseFor st r.userId r.saleId = false)
    (hpay : r.paymentOk = false) :
    (runSys (Sys.mk st [Thread.purchase r PPhase.start]) [0, 0, 0, 0]).threads =
      [Thread.purchase r (PPhase.err PError.paymentInitFailed)] ∧
    stockOf (runSys (Sys.mk st [Thread.purchase r PPhase.start]) [0, 0, 0, 0]).store
        r.saleId r.productId = stockOf st r.saleId r.productId ∧
    (runSys (Sys.mk st [Thread.purchase r PPhase.start]) [0]).store.purchases = st.purchases ∧
    (runSys (Sys.mk st [Thread.purchase r PPhase.start]) [0, 0]).store.purchases = st.purchases ∧
    (runSys (Sys.mk st [Thread.purchase r PPhase.start]) [0, 0, 0]).store.purchases = st.purchases ∧
    (runSys (Sys.mk st [Thread.purchase r PPhase.start]) [0, 0, 0, 0]).store.purchases =
      st.purchases := by
  have hsple : ¬sp.stockRemaining ≤ 0 := not_le.mpr hsp
  -- the stored counter before the call
  have hstock : stockOf st r.saleId r.productId = some sp.stockRemaining := by
    unfold stockOf
    rw [findSale_of_findActive st sale r.saleId r.now hwf hsale]
    simp [hprod]
  -- the conditional decrement matches through the requested line item itself
  -- (its own counter is positive, the unambiguous regime)
  obtain ⟨st1, hdec⟩ := decStock_pos st r.saleId r.productId sp.stockRemaining hwf hstock hsp
  obtain ⟨v, hv, hvpos, hdec1, _, hwf1, hpur1, _⟩ :=
    decStock_some st r.saleId r.productId r.productId st1 hwf hdec
  have hveq : v = sp.stockRemaining := by
    rw [hstock] at hv
    exact (Option.some.inj hv).symm
  -- the four program-order steps
  have hstep1 : stepThread st (Thread.purchase r PPhase.start) =
      (st, Thread.purchase r (PPhase.preDec sp.salePrice), Eff.other) := by
    simp [stepThread, hsale, hprod, hsple, hdup]
  have hstep2 : stepThread st (Thread.purchase r (PPhase.preDec sp.salePrice)) =
      (st1, Thread.purchase r (PPhase.preInit sp.salePrice),
        Eff.dec r.saleId r.productId) := by
    show (match decStock st r.saleId r.productId with
      | none => (st, Thread.purchase r (PPhase.err PError.outOfStock), Eff.other)
      | some (wpid, st2) => (st2, Thread.purchase r (PPhase.preInit sp.salePrice),
          Eff.dec r.saleId wpid)) = _
    rw [hdec]
  have hstep3 : stepThread st1 (Thread.purchase r (PPhase.preInit sp.salePrice)) =
      (st1, Thread.purchase r PPhase.preFail, Eff.other) := by
    simp [stepThread, hpay]
  have hstep4 : stepThread st1 (Thread.purchase r PPhase.preFail) =
      (incStock st1 r.saleId r.productId,
        Thread.purchase r (PPhase.err PError.paymentInitFailed),
        Eff.inc r.saleId r.productId) := rfl
  -- chain them through the scheduler
  have hs1 : stepSysE (Sys.mk st [Thread.purchase r PPhase.start]) 0 =
      (Sys.mk st [Thread.purchase r (PPhase.preDec sp.salePrice)], Eff.other) := by
    unfold stepSysE
    simp [hstep1]
  have hs2 : stepSysE (Sys.mk st [Thread.purchase r (PPhase.preDec sp.salePrice)]) 0 =
      (Sys.mk st1 [Thread.purchase r (PPhase.preInit sp.salePrice)],
        Eff.dec r.saleId r.productId) := by
    unfold stepSysE
    simp [hstep2]
  have hs3 : stepSysE (Sys.mk st1 [Thread.purchase r (PPhase.preInit sp.salePrice)]) 0 =
      (Sys.mk st1 [Thread.purchase r PPhase.preFail], Eff.other) := by
    unfold stepSysE
    simp [hstep3]
  have hs4 : stepSysE (Sys.mk st1 [Thread.purchase r PPhase.preFail]) 0 =
      (Sys.mk (incStock st1 r.saleId r.productId)
        [Thread.purchase r (PPhase.err PError.paymentInitFailed)],
        Eff.inc r.saleId r.productId) := by
    unfold stepSysE
    simp [hstep4]
  have hrun1 : runSys (Sys.mk st [Thread.purchase r PPhase.start]) [0] =
      Sys.mk st [Thread.purchase r (PPhase.preDec sp.salePrice)] := by
    show (stepSysE (Sys.mk st [Thread.purchase r PPhase.start]) 0).1 = _
    rw [hs1]
  have hrun2 : runSys (Sys.mk st [Thread.purchase r PPhase.start]) [0, 0] =
      Sys.mk st1 [Thread.purchase r (PPhase.preInit sp.salePrice)] := by
    show (stepSysE (stepSysE (Sys.mk st [Thread.purchase r PPhase.start]) 0).1 0).1 = _
    rw [hs1]
    exact congrArg Prod.fst hs2
  have hrun3 : runSys (Sys.mk st [Thread.purchase r PPhase.start]) [0, 0, 0] =
      Sys.mk st1 [Thread.purchase r PPhase.preFail] := by
    show (stepSysE (stepSysE (stepSysE (Sys.mk st [Thread.purchase r PPhase.start]) 0).1 0).1 0).1 = _
    rw [hs1]
    rw [show (stepSysE (Sys.mk st [Thread.purchase r (PPhase.preDec sp.salePrice)]) 0).1 =
      Sys.mk st1 [Thread.purchase r (PPhase.preInit sp.salePrice)] from congrArg Prod.fst hs2]
    exact congrArg Prod.fst hs3
  have hrun4 : runSys (Sys.mk st [Thread.purchase r PPhase.start]) [0, 0, 0, 0] =
      Sys.mk (incStock st1 r.saleId r.productId)
        [Thread.purchase r (PPhase.err PError.paymentInitFailed)] := by
    show (stepSysE (stepSysE (stepSysE (stepSysE
        (Sys.mk st [Thread.purchase r PPhase.start]) 0).1 0).1 0).1 0).1 = _
    rw [hs1]
    rw [show (stepSysE (Sys.mk st [Thread.purchase r (PPhase.preDec sp.salePrice)]) 0).1 =
      Sys.mk st1 [Thread.purchase r (PPhase.preInit sp.salePrice)] from congrArg Prod.fst hs2]
    rw [show (stepSysE (Sys.mk st1 [Thread.purchase r (PPhase.preInit sp.salePrice)]) 0).1 =
      Sys.mk st1 [Thread.purchase r PPhase.preFail] from congrArg Prod.fst hs3]
    exact congrArg Prod.fst hs4
  refine ⟨by rw [hrun4], ?_, by rw [hrun1], by rw [hrun2]; exact hpur1,
    by rw [hrun3]; exact hpur1, ?_⟩
  · rw [hrun4]
    show stockOf (incStock st1 r.saleId r.productId) r.saleId r.productId = _
    rw [incStock_stockOf_self st1 r.saleId r.productId (v - 1) hwf1 hdec1]
    rw [hstock, hveq]
    congr 1
    ring
  · rw [hrun4]
    show (incStock st1 r.saleId r.productId).purchases = st.purchases
    rw [incStock_purchases]
    exact hpur1

/-- A single failing-payment request against the fresh fixture store. -/
def failReq : PReq :=
  { userId := 9, saleId := 1, productId := 7, paymentRef := 200, now := 50, paymentOk := false }

def failSys : Sys := { store := storeFix, threads := [Thread.purchase failReq PPhase.start] }

/-- Witness for C6's amended theorem at the concrete failing request. -/
theorem c6_witness :
    WfStore failSys.store ∧
    findActiveSale failSys.store failReq.saleId failReq.now = some saleFix ∧
    (0 : Int) < 2 ∧ failReq.paymentOk = false ∧
    (runSys failSys [0, 0, 0, 0]).store.purchases = failSys.store.purchases :=
  ⟨by decide, by decide, by decide, by decide,
    (c6_payment_failure_restores_stock_and_leaves_no_row storeFix failReq saleFix
      { productId := 7, salePrice := 500, stockLimit := 2, stockRemaining := 2 }
      (by decide) (by decide) (by decide) (by decide) (by decide) (by decide)).2.2.2.2.2⟩

/-- Counterexample to C6 as frozen: the claim asserts the failing call deletes
"the pending Reservation inserted in step 5"; in the code the insert happens
only *after* a successful payment initiation, so in the failing run the
ledger is empty at every step — no reservation is ever inserted, hence none
is deleted — while the call still ends with `PaymentInitFailed` and the
restored counter. -/
theorem c6_counterexample :
    (runSys failSys [0]).store.purchases = [] ∧
    (runSys failSys [0, 0]).store.purchases = [] ∧
    (runSys failSys [0, 0, 0]).store.purchases = [] ∧
    (runSys failSys [0, 0, 0, 0]).store.purchases = [] ∧
    (runSys failSys [0, 0, 0, 0]).threads =
      [Thread.purchase failReq (PPhase.err PError.paymentInitFailed)] ∧
    stockOf (runSys failSys [0, 0, 0, 0]).store 1 7 = some 2 := by decide

/-! ### Claim C9: sale-window lifecycle -/

theorem borE {a b : Bool} (h : (a || b) = true) : a = true ∨ b = true := by
  cases a
  · right; simpa using h
  · left; rfl

theorem find?_congr_pred {α : Type} (p q : α → Bool) (h : ∀ a, p a = q a) :
    ∀ l : List α, l.find? p = l.find? q := by
  intro l
  induction l with
  | nil => rfl
  | cons a as ih =>
      simp only [List.find?, h a]
      cases q a
      · exact ih
      · rfl

def statusOf (st : Store) (saleId : Nat) : Option SaleStatus :=
  (findSale st saleId).map FlashSale.status

/-- C9 (amended): `deactivateFlashSale` always lands in the terminal
`cancelled` state; the periodic sync only selects `scheduled`/`active`
windows past `endTime` and moves them to the terminal `ended` — it never
touches a terminal window and never produces `scheduled` or `active`.
`activateFlashSale`, however, sets the found window to `active`
unconditionally — regardless of its previous status — so the
`scheduled → active → ended | cancelled` order is **not** monotonic at the
activate endpoint (an `ended` or `cancelled` window can be re-activated). -/
theorem c9_lifecycle_operations
    (st : Store) (saleId now : Nat) (hwf : WfStore st) :
    (∀ st', activateFlashSale st saleId = some st' →
        statusOf st' saleId = some SaleStatus.active) ∧
    (∀ st', deactivateFlashSale st saleId = some st' →
        statusOf st' saleId = some SaleStatus.cancelled) ∧
    (∀ s0, statusOf st saleId = some s0 →
        (s0 = SaleStatus.ended ∨ s0 = SaleStatus.cancelled) →
        statusOf (syncEndedSales st now) saleId = some s0) ∧
    (∀ sid, statusOf (syncEndedSales st now) sid = statusOf st sid ∨
        (statusOf (syncEndedSales st now) sid = some SaleStatus.ended ∧
          (statusOf st sid = some SaleStatus.scheduled ∨
            statusOf st sid = some SaleStatus.active))) := by
  have hsync : ∀ sid, statusOf (syncEndedSales st now) sid = statusOf st sid ∨
      (statusOf (syncEndedSales st now) sid = some SaleStatus.ended ∧
        (statusOf st sid = some SaleStatus.scheduled ∨
          statusOf st sid = some SaleStatus.active)) := by
    intro sid
    unfold statusOf findSale syncEndedSales
    simp only
    rw [List.find?_map]
    have hsame : st.sales.find?
        ((fun s => s.id == sid) ∘ fun s =>
          if (s.status == SaleStatus.scheduled || s.status == SaleStatus.active) && s.endTime < now
          then { s with status := SaleStatus.ended, isActive := false } else s) =
        st.sales.find? (fun s => s.id == sid) := by
      apply find?_congr_pred
      intro a
      by_cases hc : ((a.status == SaleStatus.scheduled || a.status == SaleStatus.active)
          && decide (a.endTime < now)) = true
      · simp [Function.comp, hc]
      · simp [Function.comp, hc]
    rw [hsame]
    cases hfind : st.sales.find? (fun s => s.id == sid) with
    | none => simp
    | some s =>
        by_cases hc : ((s.status == SaleStatus.scheduled || s.status == SaleStatus.active)
            && decide (s.endTime < now)) = true
        · right
          have hor : s.status = SaleStatus.scheduled ∨ s.status = SaleStatus.active := by
            rcases borE (bandl hc) with hd | hd
            · exact Or.inl (by simpa using hd)
            · exact Or.inr (by simpa using hd)
          have hend : s.endTime < now := by simpa using bandr hc
          constructor
          · simp [hor, hend]
          · rcases hor with hd | hd
            · left; simp [hd]
            · right; simp [hd]
        · left
          have hnot : ¬((s.status = SaleStatus.scheduled ∨ s.status = SaleStatus.active) ∧
              s.endTime < now) := by
            intro hcc
            apply hc
            refine bandi ?_ (by simpa using hcc.2)
            rcases hcc.1 with hd | hd
            · simp [hd]
            · simp [hd]
          simp [hnot]
  refine ⟨?_, ?_, ?_, hsync⟩
  · intro st' hact
    unfold activateFlashSale at hact
    by_cases hany : st.sales.any (fun s => s.id == saleId) = true
    · simp only [hany, if_pos] at hact
      obtain rfl : _ = st' := Option.some.inj hact
      obtain ⟨s, hfind, hps⟩ := find?_of_any FlashSale.id (fun s => s.id == saleId) saleId
        (fun a ha => by simpa using ha) st.sales hwf.salesNodup hany
      unfold statusOf findSale
      simp only
      rw [find?_updateFirst_eq FlashSale.id (fun s => s.id == saleId)
        (fun s => { s with isActive := true, status := SaleStatus.active }) saleId
        (fun a ha => by simpa using ha) (fun a => rfl) st.sales hwf.salesNodup]
      rw [hfind]
      simp [hps, show s.id = saleId by simpa using hps]
    · simp [hany] at hact
  · intro st' hdeact
    unfold deactivateFlashSale at hdeact
    by_cases hany : st.sales.any (fun s => s.id == saleId) = true
    · simp only [hany, if_pos] at hdeact
      obtain rfl : _ = st' := Option.some.inj hdeact
      obtain ⟨s, hfind, hps⟩ := find?_of_any FlashSale.id (fun s => s.id == saleId) saleId
        (fun a ha => by simpa using ha) st.sales hwf.salesNodup hany
      unfold statusOf findSale
      simp only
      rw [find?_updateFirst_eq FlashSale.id (fun s => s.id == saleId)
        (fun s => { s with products := s.products.map (fun p => { p with stockRemaining := 0 }), isActive := false, status := SaleStatus.cancelled }) saleId
        (fun a ha => by simpa using ha) (fun a => rfl) st.sales hwf.salesNodup]
      rw [hfind]
      simp [hps, show s.id = saleId by simpa using hps]
    · simp [hany] at hdeact
  · intro s0 hs0 hterm
    rcases hsync saleId with h | ⟨_, hwas⟩
    · rw [h, hs0]
    · rcases hwas with hwas | hwas <;> rw [hs0] at hwas <;>
        rcases hterm with ht | ht <;> simp [ht] at hwas

/-- The fixture sale, already in the terminal `ended` state. -/
def endedSaleFix : FlashSale :=
  { saleFix with status := SaleStatus.ended, isActive := false }

def endedStoreFix : Store := { sales := [endedSaleFix], purchases := [], nextId := 1 }

/-- Witness for C9's amended theorem: the sync tick leaves an `ended` window
`ended`. -/
theorem c9_witness :
    WfStore endedStoreFix ∧
    statusOf (syncEndedSales endedStoreFix 99999) 1 = some SaleStatus.ended :=
  ⟨by decide, (c9_lifecycle_operations endedStoreFix 1 99999 (by decide)).2.2.1
    SaleStatus.ended (by decide) (Or.inl rfl)⟩

/-- Counterexample to C9 as frozen: `activateFlashSale` (an unconditional
`findByIdAndUpdate(id, {isActive: true, status: 'active'})`, lines 249–254)
moves a window from the terminal `ended` status straight back to `active`. -/
theorem c9_counterexample :
    statusOf endedStoreFix 1 = some SaleStatus.ended ∧
    (activateFlashSale endedStoreFix 1).map (fun st => statusOf st 1) =
      some (some SaleStatus.active) ∧
    SaleStatus.ended ≠ SaleStatus.active := by decide

/-! ### Session/Token Authority

From `src/src/common/utils/authenticate.ts` (the jti-whitelist revision,
lines 100–317) and the session part of `signIn`
(`src/src/controller/auth.controller.ts`, lines 99–132).  The Redis
key-value store is modelled with explicit expiry instants (a `set` with a TTL
of `n` seconds at instant `now` stores expiry `now + n`; a `get` at `now`
yields the value iff `now < expiry`); `user:{id}:refresh` sets are lists with
set-semantics `sadd`/`srem`; jtis (`randomUUID`) are `Nat`.  JWT
signature/expiry verification is outside the store: the claims below concern
requests whose token decoded successfully to its payload `{id, version,
jti}`.  The SHA-256 client-context hash is modelled by its preimage
(collision-free). -/

/-- `getContextHash` (authenticate.ts lines 142–145): `'no-context'` when
both ip and user-agent are JS-falsy, else the hash of `ip + '-' + ua` with
JS `undefined` printing for absent values. -/
inductive CtxHash
  | noContext
  | sha256 (preimage : String)
  deriving DecidableEq, Repr

def jsFalsy (o : Option String) : Bool := o.isNone || o == some ""

def jsStr : Option String → String
  | none => "undefined"
  | some s => s

def getContextHash (ip ua : Option String) : CtxHash :=
  if jsFalsy ip && jsFalsy ua then CtxHash.noContext
  else CtxHash.sha256 (jsStr ip ++ "-" ++ jsStr ua)

/-- The value cached under `refresh:{jti}` (`StoredRefreshData`). -/
structure StoredRefreshD where
  userId : Nat
  context : CtxHash
  grace : Bool
  deriving DecidableEq, Repr

structure UserRec where
  tokenVersion : Nat
  isSuspended : Bool
  isVerified : Bool
  deriving DecidableEq, Repr

/-- The decoded refresh-token payload (`TokenPayload`). -/
structure TokenPayload where
  id : Nat
  version : Nat
  jti : Nat
  deriving DecidableEq, Repr

/-- Redis state as seen by the session authority: the user cache/database,
the `refresh:{jti}` whitelist entries (with absolute expiry instants), and
the per-user `user:{id}:refresh` tracking sets. -/
structure SessionStore where
  users : Nat → Option UserRec
  refresh : Nat → Option (StoredRefreshD × Nat)
  userSessions : Nat → List Nat

/-- `redis.get('refresh:{jti}')` at instant `now`: TTL semantics. -/
def redisGetRefresh (st : SessionStore) (now jti : Nat) : Option StoredRefreshD :=
  (st.refresh jti).bind fun de => if now < de.2 then some de.1 else none

def redisSetRefresh (st : SessionStore) (jti : Nat) (d : StoredRefreshD) (expiry : Nat) :
    SessionStore :=
  { st with refresh := fun j => if j = jti then some (d, expiry) else st.refresh j }

def redisDelRefresh (st : SessionStore) (jti : Nat) : SessionStore :=
  { st with refresh := fun j => if j = jti then none else st.refresh j }

def saddSession (st : SessionStore) (uid jti : Nat) : SessionStore :=
  { st with userSessions := fun u =>
      if u = uid then
        (if jti ∈ st.userSessions uid then st.userSessions uid
         else st.userSessions uid ++ [jti])
      else st.userSessions u }

def sremSession (st : SessionStore) (uid jti : Nat) : SessionStore :=
  { st with userSessions := fun u =>
      if u = uid then (st.userSessions uid).filter (fun j => j ≠ jti)
      else st.userSessions u }

/-- authenticate.ts lines 189–202, `revokeAllUserSessions`: delete the
`refresh:` key of every jti tracked in the user's set, then delete the set.
(The `length > 0` guard changes nothing observable.) -/
def revokeAllUserSessions (st : SessionStore) (uid : Nat) : SessionStore :=
  let jtis := st.userSessions uid
  if jtis.length > 0 then
    { st with
      refresh := fun j => if j ∈ jtis then none else st.refresh j,
      userSessions := fun u => if u = uid then [] else st.userSessions u }
  else st

/-- Grace period kept on a rotated-out jti (line 128). -/
def ROTATION_GRACE_SECONDS : Nat := 10

/-- `ENVIRONMENT.JWT_EXPIRES_IN.REFRESH_SECONDS`; the configured refresh-token
lifetime (7 days in the deployed configuration — the exact figure is
immaterial to the theorems). -/
def REFRESH_TTL_SECONDS : Nat := 7 * 24 * 60 * 60

inductive AuthErr
  | authFailed          -- user not found ('Authentication failed')
  | versionMismatch     -- tokenVersion differs ('Session invalidated…')
  | suspended           -- account suspended
  | unverified          -- email unverified (422)
  | sessionInvalid      -- jti not whitelisted ('Session invalid. Please log in again')
  | contextMismatch     -- context-hash mismatch ('Session expired. Please log in again')
  deriving DecidableEq, Repr

/-- Result of a successful refresh: whether the call rotated and, if so, the
newly whitelisted jti (the grace branch returns without rotating). -/
structure RotateResult where
  userId : Nat
  rotated : Bool
  newJti : Option Nat
  deriving DecidableEq, Repr

/-- authenticate.ts lines 205–277, `handleRefreshToken`, for a request whose
refresh token verified and decoded to `tok`: fetch + check the user
(`verifyAndFetchUser`, read-through cache modelled as the direct lookup),
then check the whitelist entry, the context binding and the grace flag, then
rotate.  `newJti` stands for the `randomUUID()` drawn at line 258. -/
def handleRefreshToken (st : SessionStore) (now : Nat) (tok : TokenPayload)
    (ip ua : Option String) (newJti : Nat) :
    SessionStore × Except AuthErr RotateResult :=
  match st.users tok.id with
  | none => (st, Except.error AuthErr.authFailed)
  | some u =>
    if u.tokenVersion ≠ tok.version then (st, Except.error AuthErr.versionMismatch)
    else if u.isSuspended then (st, Except.error AuthErr.suspended)
    else if ¬u.isVerified then (st, Except.error AuthErr.unverified)
    else
      match redisGetRefresh st now tok.jti with
      | none =>
          (revokeAllUserSessions st tok.id, Except.error AuthErr.sessionInvalid)
      | some stored =>
          if stored.context ≠ getContextHash ip ua then
            (revokeAllUserSessions st tok.id, Except.error AuthErr.contextMismatch)
          else if stored.grace then
            (st, Except.ok { userId := tok.id, rotated := false, newJti := none })
          else
            let st1 := redisSetRefresh st tok.jti { stored with grace := true }
              (now + ROTATION_GRACE_SECONDS)
            let st2 := sremSession st1 tok.id tok.jti
            let st3 := redisSetRefresh st2 newJti
              { userId := tok.id, context := getContextHash ip ua, grace := false }
              (now + REFRESH_TTL_SECONDS)
            let st4 := saddSession st3 tok.id newJti
            (st4, Except.ok { userId := tok.id, rotated := true, newJti := some newJti })

/-- auth.controller.ts lines 99–122, the session steps of `signIn` after the
credential checks: revoke every tracked session, mint and whitelist a fresh
jti bound to the caller's context hash, and track it. -/
def signInSessions (st : SessionStore) (uid newJti : Nat) (ctx : CtxHash) (now : Nat) :
    SessionStore :=
  let st1 := revokeAllUserSessions st uid
  let st2 := redisSetRefresh st1 newJti
    { userId := uid, context := ctx, grace := false } (now + REFRESH_TTL_SECONDS)
  saddSession st2 uid newJti

/-- What `revokeAllUserSessions` guarantees: the user's tracking set is
emptied and every tracked jti's whitelist entry is deleted. -/
theorem revokeAll_spec (st : SessionStore) (uid : Nat) :
    (revokeAllUserSessions st uid).userSessions uid = [] ∧
    ∀ j ∈ st.userSessions uid, (revokeAllUserSessions st uid).refresh j = none := by
  unfold revokeAllUserSessions
  by_cases h : (st.userSessions uid).length > 0
  · constructor
    · simp [h]
    · intro j hj
      simp [h, hj]
  · have hempty : st.userSessions uid = [] := List.length_eq_zero.mp (by omega)
    constructor
    · simp [h, hempty]
    · intro j hj
      rw [hempty] at hj
      simp at hj

/-! ### Claim C7 -/

/-- C7: after a rotation at instant `now`, presenting the old session id
again with the same client context succeeds without a second rotation and
without touching the store as long as the grace entry is alive
(`now2 < now + 10 s`) — the grace branch returns immediately.  Once the grace
TTL has elapsed (`now3 ≥ now + 10 s`) the whitelist entry is gone, so the
same presentation revokes every session tracked for the user and fails with
`SessionInvalid`. -/
theorem c7_rotation_grace_window
    (st : SessionStore) (now now2 now3 : Nat) (tok : TokenPayload) (ip ua : Option String)
    (newJti j2 j3 : Nat) (u : UserRec) (d : StoredRefreshD) (expiry : Nat)
    (huser : st.users tok.id = some u)
    (hver : u.tokenVersion = tok.version)
    (hsus : u.isSuspended = false)
    (hverif : u.isVerified = true)
    (hentry : st.refresh tok.jti = some (d, expiry))
    (hlive : now < expiry)
    (hctx : d.context = getContextHash ip ua)
    (hng : d.grace = false)
    (hfresh : newJti ≠ tok.jti)
    (h2b : now2 < now + ROTATION_GRACE_SECONDS)
    (h3 : now + ROTATION_GRACE_SECONDS ≤ now3) :
    (handleRefreshToken st now tok ip ua newJti).2 =
      Except.ok { userId := tok.id, rotated := true, newJti := some newJti } ∧
    handleRefreshToken (handleRefreshToken st now tok ip ua newJti).1 now2 tok ip ua j2 =
      ((handleRefreshToken st now tok ip ua newJti).1,
        Except.ok { userId := tok.id, rotated := false, newJti := none }) ∧
    (handleRefreshToken (handleRefreshToken st now tok ip ua newJti).1 now3 tok ip ua j3).2 =
      Except.error AuthErr.sessionInvalid ∧
    (handleRefreshToken (handleRefreshToken st now tok ip ua newJti).1
        now3 tok ip ua j3).1.userSessions tok.id = [] ∧
    ∀ j ∈ (handleRefreshToken st now tok ip ua newJti).1.userSessions tok.id,
      (handleRefreshToken (handleRefreshToken st now tok ip ua newJti).1
        now3 tok ip ua j3).1.refresh j = none := by
  have hget : redisGetRefresh st now tok.jti = some d := by
    unfold redisGetRefresh
    rw [hentry]
    simp [hlive]
  have hmain : handleRefreshToken st now tok ip ua newJti =
      (saddSession (redisSetRefresh (sremSession (redisSetRefresh st tok.jti
          { d with grace := true } (now + ROTATION_GRACE_SECONDS)) tok.id tok.jti) newJti
          { userId := tok.id, context := getContextHash ip ua, grace := false }
          (now + REFRESH_TTL_SECONDS)) tok.id newJti,
        Except.ok { userId := tok.id, rotated := true, newJti := some newJti }) := by
    simp [handleRefreshToken, huser, hget, hver, hsus, hverif, hctx, hng]
  obtain ⟨st1, hst1⟩ : ∃ s, (handleRefreshToken st now tok ip ua newJti).1 = s := ⟨_, rfl⟩
  rw [hst1]
  have husers1 : st1.users tok.id = some u := by
    rw [← hst1, hmain]
    simpa [saddSession, redisSetRefresh, sremSession] using huser
  have hrefresh_old : st1.refresh tok.jti =
      some ({ d with grace := true }, now + ROTATION_GRACE_SECONDS) := by
    rw [← hst1, hmain]
    simp [saddSession, redisSetRefresh, sremSession, Ne.symm hfresh]
  have hget2 : redisGetRefresh st1 now2 tok.jti = some { d with grace := true } := by
    unfold redisGetRefresh
    rw [hrefresh_old]
    simp [h2b]
  have hdead : redisGetRefresh st1 now3 tok.jti = none := by
    unfold redisGetRefresh
    rw [hrefresh_old]
    simp
    omega
  have hcall2 : handleRefreshToken st1 now2 tok ip ua j2 =
      (st1, Except.ok { userId := tok.id, rotated := false, newJti := none }) := by
    simp [handleRefreshToken, husers1, hget2, hver, hsus, hverif, hctx]
  have hcall3 : handleRefreshToken st1 now3 tok ip ua j3 =
      (revokeAllUserSessions st1 tok.id, Except.error AuthErr.sessionInvalid) := by
    simp [handleRefreshToken, husers1, hdead, hver, hsus, hverif]
  refine ⟨by rw [hmain], hcall2, by rw [hcall3], ?_, ?_⟩
  · rw [hcall3]
    exact (revokeAll_spec st1 tok.id).1
  · intro j hj
    rw [hcall3]
    exact (revokeAll_spec st1 tok.id).2 j hj

/-- Concrete session fixtures for the C7/C8 witnesses. -/
def sessUser : UserRec := { tokenVersion := 3, isSuspended := false, isVerified := true }

def sessTok : TokenPayload := { id := 42, version := 3, jti := 11 }

def sessD : StoredRefreshD :=
  { userId := 42, context := getContextHash (some "1.2.3.4") (some "agent"), grace := false }

def sessStore : SessionStore :=
  { users := fun uid => if uid = 42 then some sessUser else none,
    refresh := fun j => if j = 11 then some (sessD, 700) else none,
    userSessions := fun uid => if uid = 42 then [11] else [] }

/-- Witness for C7 at a concrete store: rotation at `t = 100`, replay of the
old jti at `t = 105` (inside the 10 s grace window) and at `t = 110` (grace
elapsed). -/
theorem c7_witness :
    sessStore.users sessTok.id = some sessUser ∧
    sessStore.refresh sessTok.jti = some (sessD, 700) ∧ (100 : Nat) < 700 ∧
    sessD.context = getContextHash (some "1.2.3.4") (some "agent") ∧
    sessD.grace = false ∧ (12 : Nat) ≠ 11 ∧
    (105 : Nat) < 100 + ROTATION_GRACE_SECONDS ∧
    100 + ROTATION_GRACE_SECONDS ≤ (110 : Nat) ∧
    (handleRefreshToken sessStore 100 sessTok (some "1.2.3.4") (some "agent") 12).2 =
      Except.ok { userId := sessTok.id, rotated := true, newJti := some 12 } :=
  ⟨by decide, by decide, by decide, by decide, by decide, by decide, by decide, by decide,
    (c7_rotation_grace_window sessStore 100 105 110 sessTok (some "1.2.3.4") (some "agent")
      12 13 14 sessUser sessD 700 (by decide) (by decide) (by decide) (by decide) (by decide)
      (by decide) (by decide) (by decide) (by decide) (by decide) (by decide)).1⟩

/-! ### Claim C8 -/

/-- C8: during refresh verification, a whitelisted session whose recorded
context hash differs from the hash of the caller's ip/user-agent triggers
`revokeAllUserSessions` — the user's tracking set is emptied and every
tracked session's whitelist entry deleted — and the call fails with the 401
re-login error (authenticate.ts lines 232–239). -/
theorem c8_context_mismatch_revokes_all_sessions
    (st : SessionStore) (now : Nat) (tok : TokenPayload) (ip ua : Option String)
    (newJti : Nat) (u : UserRec) (d : StoredRefreshD) (expiry : Nat)
    (huser : st.users tok.id = some u)
    (hver : u.tokenVersion = tok.version)
    (hsus : u.isSuspended = false)
    (hverif : u.isVerified = true)
    (hentry : st.refresh tok.jti = some (d, expiry))
    (hlive : now < expiry)
    (hctx : d.context ≠ getContextHash ip ua) :
    (handleRefreshToken st now tok ip ua newJti).2 = Except.error AuthErr.contextMismatch ∧
    (handleRefreshToken st now tok ip ua newJti).1.userSessions tok.id = [] ∧
    ∀ j ∈ st.userSessions tok.id,
      (handleRefreshToken st now tok ip ua newJti).1.refresh j = none := by
  have hget : redisGetRefresh st now tok.jti = some d := by
    unfold redisGetRefresh
    rw [hentry]
    simp [hlive]
  have hcall : handleRefreshToken st now tok ip ua newJti =
      (revokeAllUserSessions st tok.id, Except.error AuthErr.contextMismatch) := by
    simp [handleRefreshToken, huser, hget, hver, hsus, hverif, hctx]
  refine ⟨by rw [hcall], ?_, ?_⟩
  · rw [hcall]
    exact (revokeAll_spec st tok.id).1
  · intro j hj
    rw [hcall]
    exact (revokeAll_spec st tok.id).2 j hj

/-- Witness for C8: the same fixture session presented from a different IP:
the recorded context hash differs, the call errors, and the user's tracked
session set is emptied. -/
theorem c8_witness :
    sessStore.users sessTok.id = some sessUser ∧
    sessStore.refresh sessTok.jti = some (sessD, 700) ∧ (100 : Nat) < 700 ∧
    sessD.context ≠ getContextHash (some "9.9.9.9") (some "agent") ∧
    (handleRefreshToken sessStore 100 sessTok (some "9.9.9.9") (some "agent") 12).2 =
      Except.error AuthErr.contextMismatch :=
  ⟨by decide, by decide, by decide, by decide,
    (c8_context_mismatch_revokes_all_sessions sessStore 100 sessTok
      (some "9.9.9.9") (some "agent") 12 sessUser sessD 700 (by decide) (by decide)
      (by decide) (by decide) (by decide) (by decide) (by decide)).1⟩

/-! ### Claim C10 -/

/-- C10: the session part of `signIn` first revokes every session tracked
for the user (deleting each tracked jti's whitelist entry and the tracking
set) and only then whitelists the freshly minted jti, so immediately after
any login the user's per-user session set is exactly the singleton of the
new jti, the new jti is whitelisted with the caller's context for the full
refresh lifetime, and every previously tracked jti (other than the new one)
is no longer whitelisted. -/
theorem c10_login_leaves_exactly_one_session
    (st : SessionStore) (uid newJti : Nat) (ctx : CtxHash) (now : Nat) :
    (signInSessions st uid newJti ctx now).userSessions uid = [newJti] ∧
    (signInSessions st uid newJti ctx now).refresh newJti =
      some ({ userId := uid, context := ctx, grace := false }, now + REFRESH_TTL_SECONDS) ∧
    ∀ j ∈ st.userSessions uid, j ≠ newJti →
      (signInSessions st uid newJti ctx now).refresh j = none := by
  obtain ⟨hempty, hdel⟩ := revokeAll_spec st uid
  refine ⟨?_, ?_, ?_⟩
  · simp [signInSessions, saddSession, redisSetRefresh, hempty]
  · simp [signInSessions, saddSession, redisSetRefresh]
  · intro j hj hne
    have := hdel j hj
    simp [signInSessions, saddSession, redisSetRefresh, hne, this]

end PerfBE
